import Mathlib

/-!
Verification of the Axio mediation backend core against its design
specification.  The definitions below are a shallow embedding of the
Python sources under `backend/app/` (services/transcript.py,
services/rag.py, services/document.py, storage/vector.py,
routers/zoom.py, config.py):

* pure Python string operations are modelled over `List Char` / `String`
  (ASCII semantics for case predicates, exact Python semantics for
  `strip`, slicing and `rfind`);
* machine integers are `Nat` with explicit `% 2 ^ 32` where the source
  relies on 32-bit wrap-around (the MD5 / SHA-256 digests used for the
  sparse-vector term ids and index point ids are implemented in full);
* floating point scores only ever flow through order comparisons, so
  they are modelled as rationals; term-frequency weights are exact
  integers in the source and are modelled as `Nat`;
* the external collaborators (embedding provider, hybrid index, reranker,
  chat generation) are explicit function parameters, exactly as the spec
  treats them as external capabilities;
* fallible code returns `Except String`, `raise ValueError(msg)` becoming
  `.error msg`.
-/

namespace Axio

/-! ## Python string primitives -/

/-- The characters Python `str.strip()` removes. -/
def pyWs (c : Char) : Bool :=
  c = ' ' || c = '\t' || c = '\n' || c = '\r' || c = '\x0b' || c = '\x0c'

/-- Python `s.strip()` over a character list. -/
def pyStrip (l : List Char) : List Char :=
  ((l.dropWhile pyWs).reverse.dropWhile pyWs).reverse

/-- Python `s.strip()` on strings. -/
def pyStripS (s : String) : String := String.mk (pyStrip s.toList)

/-- Python slicing `s[a:b]` for `0 ≤ a`, `0 ≤ b` (clamped at the length). -/
def pySlice (l : List Char) (a b : Nat) : List Char := (l.drop a).take (b - a)

/-- Does `sub` occur in `l` starting at position `i`? -/
def matchAt (l sub : List Char) (i : Nat) : Bool :=
  (l.drop i).take sub.length == sub

/-- Python `s.rfind(sub)`: the largest start position of an occurrence of
`sub`, or `-1` when there is none. -/
def pyRfind (l sub : List Char) : Int :=
  match ((List.range (l.length + 1)).filter (matchAt l sub)).getLast? with
  | some i => (i : Int)
  | none => -1

/-- Python `s.split(sep)` for a non-empty separator: greedy left-to-right
scan cutting at each non-overlapping occurrence (fuelled recursion; the
fuel `l.length` always suffices because each step consumes at least one
character). -/
def splitSepAux (sep : List Char) : Nat → List Char → List Char → List (List Char)
  | _, [], cur => [cur.reverse]
  | 0, l, cur => [cur.reverse ++ l]
  | fuel + 1, c :: rest, cur =>
    if matchAt (c :: rest) sep 0 && sep.length != 0 then
      cur.reverse :: splitSepAux sep fuel ((c :: rest).drop sep.length) []
    else
      splitSepAux sep fuel rest (c :: cur)

/-- Python `s.split(sep)`. -/
def splitSep (sep l : List Char) : List (List Char) :=
  splitSepAux sep l.length l []

/-! ## Deterministic digests (hashlib.md5 / hashlib.sha256)

`storage/vector.py` derives sparse-vector term ids from the MD5 digest of
a term and index point ids from the SHA-256 digest of a chunk id.  Both
digests are implemented here over byte lists, with 32-bit words as `Nat`
reduced by `% 2 ^ 32`. -/

/-- `2 ^ 32`, the modulus of the 32-bit word arithmetic. -/
def m32 : Nat := 2 ^ 32

/-- All 32 bits set, used for bitwise complement within a word. -/
def mask32 : Nat := 2 ^ 32 - 1

/-- 32-bit left rotation. -/
def rotl32 (x s : Nat) : Nat := ((x <<< s) ||| (x >>> (32 - s))) % m32

/-- 32-bit right rotation. -/
def rotr32 (x s : Nat) : Nat := ((x >>> s) ||| (x <<< (32 - s))) % m32

/-- UTF-8 encoding of one character (Python `str.encode()`). -/
def utf8Char (c : Char) : List Nat :=
  let n := c.toNat
  if n < 0x80 then [n]
  else if n < 0x800 then [0xC0 + n / 0x40, 0x80 + n % 0x40]
  else if n < 0x10000 then
    [0xE0 + n / 0x1000, 0x80 + n / 0x40 % 0x40, 0x80 + n % 0x40]
  else
    [0xF0 + n / 0x40000, 0x80 + n / 0x1000 % 0x40, 0x80 + n / 0x40 % 0x40,
      0x80 + n % 0x40]

/-- Python `s.encode()`: UTF-8 byte sequence of a string. -/
def utf8Bytes (s : String) : List Nat := (s.toList.map utf8Char).flatten

/-- Little-endian 4-byte serialisation of a 32-bit word. -/
def leBytes4 (x : Nat) : List Nat :=
  [x % 256, x / 256 % 256, x / 65536 % 256, x / 16777216 % 256]

/-- Little-endian 8-byte serialisation of a 64-bit word. -/
def leBytes8 (x : Nat) : List Nat := (List.range 8).map fun i => x / 256 ^ i % 256

/-- Big-endian 4-byte serialisation of a 32-bit word. -/
def beBytes4 (x : Nat) : List Nat :=
  [x / 16777216 % 256, x / 65536 % 256, x / 256 % 256, x % 256]

/-- Big-endian 8-byte serialisation of a 64-bit word. -/
def beBytes8 (x : Nat) : List Nat := (leBytes8 x).reverse

/-- Split a byte list into 64-byte blocks (fuelled; `l.length` fuel always
suffices). -/
def blocks64 : Nat → List Nat → List (List Nat)
  | 0, _ => []
  | _, [] => []
  | fuel + 1, l => l.take 64 :: blocks64 fuel (l.drop 64)

/-- Merkle–Damgård padding: `0x80`, zeros to 56 mod 64, then the 8-byte
bit length (little-endian for MD5, big-endian for SHA-256). -/
def padTo448 (lenBytes : List Nat) (msg : List Nat) : List Nat :=
  msg ++ [0x80] ++ List.replicate ((56 + 64 - (msg.length + 1) % 64) % 64) 0
    ++ lenBytes

/-- The little-endian 32-bit word at index `j` of a 64-byte block. -/
def leWord (block : List Nat) (j : Nat) : Nat :=
  block.getD (4 * j) 0 + 256 * block.getD (4 * j + 1) 0
    + 65536 * block.getD (4 * j + 2) 0 + 16777216 * block.getD (4 * j + 3) 0

/-- The big-endian 32-bit word at index `j` of a 64-byte block. -/
def beWord (block : List Nat) (j : Nat) : Nat :=
  16777216 * block.getD (4 * j) 0 + 65536 * block.getD (4 * j + 1) 0
    + 256 * block.getD (4 * j + 2) 0 + block.getD (4 * j + 3) 0

/-- The 64 MD5 round constants `⌊|sin (i+1)| · 2 ^ 32⌋` (RFC 1321). -/
def md5K : List Nat :=
  [3614090360, 3905402710, 606105819, 3250441966,
   4118548399, 1200080426, 2821735955, 4249261313,
   1770035416, 2336552879, 4294925233, 2304563134,
   1804603682, 4254626195, 2792965006, 1236535329,
   4129170786, 3225465664, 643717713, 3921069994,
   3593408605, 38016083, 3634488961, 3889429448,
   568446438, 3275163606, 4107603335, 1163531501,
   2850285829, 4243563512, 1735328473, 2368359562,
   4294588738, 2272392833, 1839030562, 4259657740,
   2763975236, 1272893353, 4139469664, 3200236656,
   681279174, 3936430074, 3572445317, 76029189,
   3654602809, 3873151461, 530742520, 3299628645,
   4096336452, 1126891415, 2878612391, 4237533241,
   1700485571, 2399980690, 4293915773, 2240044497,
   1873313359, 4264355552, 2734768916, 1309151649,
   4149444226, 3174756917, 718787259, 3951481745]

/-- The 64 MD5 per-round left-rotation amounts. -/
def md5S : List Nat :=
  [7, 12, 17, 22, 7, 12, 17, 22, 7, 12, 17, 22, 7, 12, 17, 22,
   5, 9, 14, 20, 5, 9, 14, 20, 5, 9, 14, 20, 5, 9, 14, 20,
   4, 11, 16, 23, 4, 11, 16, 23, 4, 11, 16, 23, 4, 11, 16, 23,
   6, 10, 15, 21, 6, 10, 15, 21, 6, 10, 15, 21, 6, 10, 15, 21]

/-- One MD5 block compression. -/
def md5Compress (st : Nat × Nat × Nat × Nat) (block : List Nat) :
    Nat × Nat × Nat × Nat :=
  let r := (List.range 64).foldl
    (fun (s : Nat × Nat × Nat × Nat) i =>
      let (a, b, c, d) := s
      let f :=
        if i < 16 then (b &&& c) ||| ((mask32 ^^^ b) &&& d)
        else if i < 32 then (d &&& b) ||| ((mask32 ^^^ d) &&& c)
        else if i < 48 then b ^^^ c ^^^ d
        else c ^^^ (b ||| (mask32 ^^^ d))
      let g :=
        if i < 16 then i
        else if i < 32 then (5 * i + 1) % 16
        else if i < 48 then (3 * i + 5) % 16
        else 7 * i % 16
      let f2 := (f + a + md5K.getD i 0 + leWord block g) % m32
      (d, (b + rotl32 f2 (md5S.getD i 0)) % m32, b, c))
    st
  ((st.1 + r.1) % m32, (st.2.1 + r.2.1) % m32, (st.2.2.1 + r.2.2.1) % m32,
    (st.2.2.2 + r.2.2.2) % m32)

/-- The 16-byte MD5 digest of a byte sequence. -/
def md5Digest (msg : List Nat) : List Nat :=
  let padded := padTo448 (leBytes8 (msg.length * 8 % 2 ^ 64)) msg
  let st := (blocks64 padded.length padded).foldl md5Compress
    (0x67452301, 0xefcdab89, 0x98badcfe, 0x10325476)
  leBytes4 st.1 ++ leBytes4 st.2.1 ++ leBytes4 st.2.2.1 ++ leBytes4 st.2.2.2

/-- Lowercase hexadecimal digit. -/
def hexDigit (n : Nat) : Char := "0123456789abcdef".toList.getD n '0'

/-- Two lowercase hex characters of one byte. -/
def byteHex (b : Nat) : List Char := [hexDigit (b / 16), hexDigit (b % 16)]

/-- Lowercase hex rendering of a byte sequence (`hexdigest()`). -/
def bytesToHex (bs : List Nat) : String := String.mk (bs.map byteHex).flatten

/-- `hashlib.md5(s.encode()).hexdigest()`. -/
def md5Hex (s : String) : String := bytesToHex (md5Digest (utf8Bytes s))

/-- Value of one hexadecimal character. -/
def hexVal (c : Char) : Nat :=
  if c.isDigit then c.toNat - 48
  else if 'a' ≤ c && c ≤ 'f' then c.toNat - 87
  else if 'A' ≤ c && c ≤ 'F' then c.toNat - 55
  else 0

/-- Python `int(s, 16)` on a valid hex string. -/
def hexToNat (s : String) : Nat := s.toList.foldl (fun a c => a * 16 + hexVal c) 0

/-- The 64 SHA-256 round constants (FIPS 180-4). -/
def sha256K : List Nat :=
  [1116352408, 1899447441, 3049323471,
   3921009573, 961987163, 1508970993,
   2453635748, 2870763221, 3624381080,
   310598401, 607225278, 1426881987,
   1925078388, 2162078206, 2614888103,
   3248222580, 3835390401, 4022224774,
   264347078, 604807628, 770255983,
   1249150122, 1555081692, 1996064986,
   2554220882, 2821834349, 2952996808,
   3210313671, 3336571891, 3584528711,
   113926993, 338241895, 666307205,
   773529912, 1294757372, 1396182291,
   1695183700, 1986661051, 2177026350,
   2456956037, 2730485921, 2820302411,
   3259730800, 3345764771, 3516065817,
   3600352804, 4094571909, 275423344,
   430227734, 506948616, 659060556,
   883997877, 958139571, 1322822218,
   1537002063, 1747873779, 1955562222,
   2024104815, 2227730452, 2361852424,
   2428436474, 2756734187, 3204031479,
   3329325298]

/-- The eight-word SHA-256 chaining state. -/
structure Sha256St where
  a : Nat
  b : Nat
  c : Nat
  d : Nat
  e : Nat
  f : Nat
  g : Nat
  hh : Nat

/-- The 64-entry SHA-256 message schedule of one block. -/
def sha256Schedule (block : List Nat) : List Nat :=
  (List.range 64).foldl
    (fun w t =>
      if t < 16 then w ++ [beWord block t]
      else
        let x := w.getD (t - 15) 0
        let y := w.getD (t - 2) 0
        let s0 := rotr32 x 7 ^^^ rotr32 x 18 ^^^ (x >>> 3)
        let s1 := rotr32 y 17 ^^^ rotr32 y 19 ^^^ (y >>> 10)
        w ++ [(w.getD (t - 16) 0 + s0 + w.getD (t - 7) 0 + s1) % m32])
    []

/-- One SHA-256 block compression. -/
def sha256Compress (st : Sha256St) (block : List Nat) : Sha256St :=
  let w := sha256Schedule block
  let r := (List.range 64).foldl
    (fun (s : Sha256St) t =>
      let s1 := rotr32 s.e 6 ^^^ rotr32 s.e 11 ^^^ rotr32 s.e 25
      let ch := (s.e &&& s.f) ^^^ ((mask32 ^^^ s.e) &&& s.g)
      let t1 := (s.hh + s1 + ch + sha256K.getD t 0 + w.getD t 0) % m32
      let s0 := rotr32 s.a 2 ^^^ rotr32 s.a 13 ^^^ rotr32 s.a 22
      let mj := (s.a &&& s.b) ^^^ (s.a &&& s.c) ^^^ (s.b &&& s.c)
      let t2 := (s0 + mj) % m32
      ⟨(t1 + t2) % m32, s.a, s.b, s.c, (s.d + t1) % m32, s.e, s.f, s.g⟩)
    st
  ⟨(st.a + r.a) % m32, (st.b + r.b) % m32, (st.c + r.c) % m32,
    (st.d + r.d) % m32, (st.e + r.e) % m32, (st.f + r.f) % m32,
    (st.g + r.g) % m32, (st.hh + r.hh) % m32⟩

/-- The 32-byte SHA-256 digest of a byte sequence. -/
def sha256Digest (msg : List Nat) : List Nat :=
  let padded := padTo448 (beBytes8 (msg.length * 8 % 2 ^ 64)) msg
  let st := (blocks64 padded.length padded).foldl sha256Compress
    ⟨1779033703, 3144134277, 1013904242, 2773480762,
      1359893119, 2600822924, 528734635, 1541459225⟩
  beBytes4 st.a ++ beBytes4 st.b ++ beBytes4 st.c ++ beBytes4 st.d
    ++ beBytes4 st.e ++ beBytes4 st.f ++ beBytes4 st.g ++ beBytes4 st.hh

/-- `hashlib.sha256(s.encode()).hexdigest()`. -/
def sha256Hex (s : String) : String := bytesToHex (sha256Digest (utf8Bytes s))

/-! ## Vector storage (storage/vector.py) -/

/-- `_chunk_id_to_point_id`: reshape the SHA-256 hex digest of a chunk id
into the index engine's UUID-shaped id format. -/
def chunkIdToPointId (chunkId : String) : String :=
  let h := (sha256Hex chunkId).toList
  String.mk (h.take 8 ++ ['-'] ++ pySlice h 8 12 ++ ['-'] ++ pySlice h 12 16
    ++ ['-'] ++ pySlice h 16 20 ++ ['-'] ++ pySlice h 20 32)

/-- `_word_hash`: deterministic 31-bit hash for sparse vector indices. -/
def wordHash (w : String) : Nat := hexToNat ((md5Hex w).take 8) % 2 ^ 31

/-- A sparse lexical vector: term-id list plus weight list.  The source
weights are Python floats, but the only values ever produced are exact
term-frequency counts and their sums, modelled as `Nat`. -/
structure SparseVector where
  indices : List Nat
  values : List Nat
deriving DecidableEq

/-- A word character of the regex `\w` (ASCII model). -/
def wordCharB (c : Char) : Bool := c.isAlphanum || c = '_'

/-- Maximal runs of word characters, the matches of `\b\w+\b`. -/
def wordRuns : List Char → List Char → List (List Char)
  | [], cur => if cur.isEmpty then [] else [cur.reverse]
  | c :: rest, cur =>
    if wordCharB c then wordRuns rest (c :: cur)
    else if cur.isEmpty then wordRuns rest [] else cur.reverse :: wordRuns rest []

/-- `re.findall(r'\b\w{2,}\b', text.lower())`: maximal word-character runs
of length at least 2 in the lowercased text (Python `str.lower()`
modelled character-wise, ASCII semantics). -/
def tokenize (s : String) : List String :=
  ((wordRuns (s.toList.map Char.toLower) []).filter
    fun r => 2 ≤ r.length).map String.mk

/-- The distinct elements of a list, in first-occurrence order
(the iteration order of a Python `Counter`). -/
def firstOccur (l : List String) : List String :=
  l.foldl (fun acc w => if w ∈ acc then acc else acc ++ [w]) []

/-- `Counter(tokens).items()`: distinct terms with their frequencies. -/
def counterFreq (l : List String) : List (String × Nat) :=
  (firstOccur l).map fun w => (w, l.count w)

/-- One step of the collision-merging dict build: add `v` at key `k`,
inserting the key if absent. -/
def insertAdd (m : List (Nat × Nat)) (k v : Nat) : List (Nat × Nat) :=
  if (m.lookup k).isSome then
    m.map fun p => if p.1 = k then (p.1, p.2 + v) else p
  else m ++ [(k, v)]

/-- `sparse_encode`: lowercase, tokenize, count term frequency, hash each
distinct term to a 31-bit id, merge colliding ids by summing their
frequencies, and emit the `(id, weight)` pairs sorted by id; a text with
no surviving tokens yields the single sentinel entry `(0, 0)`. -/
def sparse_encode (text : String) : SparseVector :=
  let tokens := tokenize text
  if tokens = [] then ⟨[0], [0]⟩
  else
    let freq := counterFreq tokens
    let pairs := List.insertionSort
      (fun p q : Nat × Nat => p.1 < q.1 ∨ (p.1 = q.1 ∧ p.2 ≤ q.2))
      (freq.map fun p => (wordHash p.1, p.2))
    let merged := pairs.foldl (fun m p => insertAdd m p.1 p.2) []
    let indices := List.insertionSort (· ≤ ·) (merged.map Prod.fst)
    let values := indices.map fun i => (merged.lookup i).getD 0
    ⟨indices, values⟩

/-! ## Transcript buffer (services/transcript.py)

The source `Turn` also carries a wall-clock timestamp refreshed on merge;
the claims under verification compare buffers only by speakers, texts and
order, so the timestamp (an external clock reading) is omitted from the
model. -/

/-- One consolidated speaker turn. -/
structure Turn where
  speaker : String
  text : String
deriving DecidableEq

/-- The merge-on-append rule of `add_turn` (and of the replay loop of
`_hydrate_from_db`): if the last buffered turn has the same speaker, its
text is extended by a space and the new text, otherwise a new turn is
appended. -/
def mergeTurn (turns : List Turn) (speaker text : String) : List Turn :=
  match turns.getLast? with
  | some last =>
    if last.speaker = speaker then
      turns.dropLast ++ [⟨last.speaker, last.text ++ " " ++ text⟩]
    else
      turns ++ [⟨speaker, text⟩]
  | none => [⟨speaker, text⟩]

/-- `_enforce_window`: pop turns from the front while more than `w` remain. -/
def enforceWindow (w : Nat) (turns : List Turn) : List Turn :=
  turns.drop (turns.length - w)

/-- `add_turn` acting on one session buffer: merge-or-append, then window
truncation.  (The raw turn is additionally persisted to the external
relational store; persistence is modelled by the caller keeping the raw
`(speaker, text)` list.) -/
def addTurn (w : Nat) (turns : List Turn) (speaker text : String) : List Turn :=
  enforceWindow w (mergeTurn turns speaker text)

/-- `_hydrate_from_db` acting on an empty buffer: replay the persisted raw
rows (oldest first) through the merge-on-append rule, then apply the
window truncation once.  An empty row set leaves the buffer empty. -/
def hydrateFromDb (w : Nat) (rows : List (String × String)) : List Turn :=
  if rows = [] then []
  else enforceWindow w (rows.foldl (fun acc r => mergeTurn acc r.1 r.2) [])

/-- Appending a sequence of raw turns directly through `add_turn`,
starting from an empty buffer (window truncation after each append). -/
def replayAppends (w : Nat) (rows : List (String × String)) : List Turn :=
  rows.foldl (fun acc r => addTurn w acc r.1 r.2) []

/-- `format_turns`: one `"speaker: text"` line per turn, in order.
`rag.py` imports this rendering as `format_turns_for_query`; the rendered
text is both the search query and the generation context. -/
def formatTurns (turns : List Turn) : String :=
  String.intercalate "\n" (turns.map fun t => t.speaker ++ ": " ++ t.text)

/-- Modelled from the spec: `query_window(session)` — `get_query_turns` is
imported by `rag.py` but its definition is not part of the sources under
verification.  The spec states it returns only the last `q` turns of the
buffer (`q` at most the window size; a suffix of the buffer). -/
def getQueryTurns (q : Nat) (turns : List Turn) : List Turn :=
  turns.drop (turns.length - q)

/-- One reply of the development websocket `transcript_ws` handler. -/
inductive WsReply where
  | wsError (msg : String)
  | ok (bufferSize : Nat)
deriving DecidableEq

/-- One message step of `transcript_ws` (routers/zoom.py): whitespace-only
text is rejected with an `{"error": "empty text"}` reply and the buffer is
left untouched; otherwise the turn is appended and an ok reply carrying
the new buffer size is sent. -/
def transcriptWsStep (w : Nat) (buffer : List Turn) (speaker text : String) :
    List Turn × WsReply :=
  if pyStrip text.toList = [] then
    (buffer, .wsError "empty text")
  else
    let b := addTurn w buffer speaker text
    (b, .ok b.length)

/-! ## Configuration (config.py) -/

namespace Settings

/-- `chunk_size_tokens`. -/
def chunkSizeTokens : Nat := 300

/-- `chunk_size_chars = chunk_size_tokens * 4`. -/
def chunkSizeChars : Nat := chunkSizeTokens * 4

/-- `chunk_overlap_chars = int(chunk_size_chars * chunk_overlap_pct)` with
`chunk_overlap_pct = 0.15`; the float product `1200 * 0.15` truncates to
`180`. -/
def chunkOverlapChars : Nat := 180

/-- `transcript_turns`, the buffer window size `W`. -/
def transcriptTurns : Nat := 10

/-- `similarity_threshold = 0.4`, compared against scores only, so the
float is modelled as the exact rational. -/
def similarityThreshold : ℚ := 2 / 5

end Settings

/-! ## Document chunker (services/document.py) -/

/-- The document fields the chunker reads. -/
structure Doc where
  id : String
  caseId : String
  party : String
  filename : String
deriving DecidableEq

/-- A chunk record (models/document.py `Chunk`). -/
structure Chunk where
  id : String
  docId : String
  caseId : String
  party : String
  filename : String
  page : Nat
  startChar : Nat
  endChar : Nat
  text : String
  parentText : String
  sectionTitle : String
deriving DecidableEq

/-- The chunk id format `f"{doc_id}:{page}:{start}-{end}"`. -/
def mkChunkId (docId : String) (page startChar endChar : Nat) : String :=
  docId ++ ":" ++ toString page ++ ":" ++ toString startChar ++ "-"
    ++ toString endChar

/-- One iteration's window-end computation of `_split_into_chunks`: cut
at most `size` characters (`end = min(start + chunk_size, len(text))`);
if the window is not final and longer than 50 characters, search backward
for the last `". "` or newline and, when that break point falls past
the window's midpoint (`break_at > len(chunk_text) * 0.5`, an exact
integer comparison since `0.5 * n` is exactly representable), shrink the
window to end just after it. -/
def splitEnd (text : List Char) (start size : Nat) : Nat :=
  let endPos := min (start + size) text.length
  let ct0 := pySlice text start endPos
  if endPos < text.length ∧ 50 < ct0.length then
    let breakAt := max (pyRfind ct0 ['.', ' ']) (pyRfind ct0 ['\n'])
    if (ct0.length : Int) < 2 * breakAt then start + breakAt.toNat + 1
    else endPos
  else endPos

/-- The sliding-window loop of `_split_into_chunks`, fuelled.  `text` is
the stripped section text (the window is longer than one chunk).  At each
step: compute the window end (`splitEnd`), emit the trimmed window,
advance the start to `end - overlap` (floored at 0 by `Nat` subtraction)
and stop when it does not move past the previous chunk's start.  `none`
means the fuel ran out (shown below never to happen with fuel
`text.length + 1`). -/
def splitLoop (doc : Doc) (page : Nat) (text : List Char)
    (sectionTitle : String) (size overlap : Nat) :
    Nat → Nat → List Chunk → Option (List Chunk)
  | fuel, start, acc =>
    if text.length ≤ start then some acc
    else
      match fuel with
      | 0 => none
      | fuel + 1 =>
        let endChar := splitEnd text start size
        let chunk : Chunk :=
          { id := mkChunkId doc.id page start endChar, docId := doc.id,
            caseId := doc.caseId, party := doc.party, filename := doc.filename,
            page := page, startChar := start, endChar := endChar,
            text := String.mk (pyStrip (pySlice text start endChar)),
            parentText := String.mk text, sectionTitle := sectionTitle }
        let acc := acc ++ [chunk]
        if text.length ≤ endChar then some acc
        else
          let start2 := endChar - overlap
          if start2 ≤ chunk.startChar then some acc
          else splitLoop doc page text sectionTitle size overlap fuel start2 acc

/-- `_split_into_chunks`: strip the flushed section; an all-whitespace
section emits nothing; a section fitting one chunk emits one chunk
spanning `0..len`; otherwise run the sliding window.  The stripped
section is the `parent_text` of every chunk it emits. -/
def splitIntoChunks (chunks : List Chunk) (doc : Doc) (page : Nat)
    (sectionText sectionTitle : String) (size overlap : Nat) : List Chunk :=
  let text := pyStrip sectionText.toList
  if text = [] then chunks
  else if text.length ≤ size then
    let single : Chunk :=
      { id := mkChunkId doc.id page 0 text.length, docId := doc.id,
        caseId := doc.caseId, party := doc.party, filename := doc.filename,
        page := page, startChar := 0, endChar := text.length,
        text := String.mk text, parentText := String.mk text,
        sectionTitle := sectionTitle }
    chunks ++ [single]
  else
    (splitLoop doc page text sectionTitle size overlap (text.length + 1) 0
      chunks).getD chunks

/-- Python `s.isupper()` (ASCII model): at least one cased character and
no lowercase one. -/
def pyIsUpper (l : List Char) : Bool :=
  l.any (fun c => c.isUpper) && !(l.any fun c => c.isLower)

/-- Helper for `pyIsTitle`: walk the characters tracking whether the
previous character was cased and whether any cased character occurred. -/
def pyIsTitleAux : List Char → Bool → Bool → Bool
  | [], _, found => found
  | c :: rest, prevCased, found =>
    if c.isUpper then
      if prevCased then false else pyIsTitleAux rest true true
    else if c.isLower then
      if prevCased then pyIsTitleAux rest true true else false
    else pyIsTitleAux rest false found

/-- Python `s.istitle()` (ASCII model). -/
def pyIsTitle (l : List Char) : Bool := pyIsTitleAux l false false

/-- `_chunk_pages`: per page, split on blank lines into paragraphs; a
single-line, short, upper- or title-cased paragraph not ending in a
period is a section heading, which flushes the accumulated section under
the previous heading; other paragraphs accumulate, with an early flush at
twice the chunk size; the remaining buffer is flushed at end of page. -/
def chunkPages (doc : Doc) (pagesText : List (Nat × String)) : List Chunk :=
  pagesText.foldl
    (fun chunks pg =>
      let paras := ((splitSep ['\n', '\n'] pg.2.toList).map pyStrip).filter
        (fun p => p ≠ [])
      let st := paras.foldl
        (fun (s : List Chunk × List Char × String) para =>
          let (chunks, currentSection, sectionTitle) := s
          let lines := splitSep ['\n'] para
          if lines.length = 1 ∧ para.length < 120
              ∧ (pyIsUpper para = true ∨ pyIsTitle para = true)
              ∧ para.getLast? ≠ some '.' then
            if pyStrip currentSection ≠ [] then
              (splitIntoChunks chunks doc pg.1 (String.mk currentSection)
                sectionTitle Settings.chunkSizeChars Settings.chunkOverlapChars,
                [], String.mk para)
            else (chunks, currentSection, String.mk para)
          else
            let currentSection := currentSection ++ para ++ ['\n', '\n']
            if Settings.chunkSizeChars * 2 ≤ currentSection.length then
              (splitIntoChunks chunks doc pg.1 (String.mk currentSection)
                sectionTitle Settings.chunkSizeChars Settings.chunkOverlapChars,
                [], sectionTitle)
            else (chunks, currentSection, sectionTitle))
        (chunks, [], "")
      if pyStrip st.2.1 ≠ [] then
        splitIntoChunks st.1 doc pg.1 (String.mk st.2.1) st.2.2
          Settings.chunkSizeChars Settings.chunkOverlapChars
      else st.1)
    []

/-! ## Retrieval pipeline and response synthesis (services/rag.py) -/

/-- The session treatment setting. -/
inductive Treatment where
  | neutralizer
  | side_by_side
deriving DecidableEq

/-- `Treatment.value`, the wire string of the treatment. -/
def Treatment.value : Treatment → String
  | .neutralizer => "neutralizer"
  | .side_by_side => "side_by_side"

/-- The session fields the pipeline reads. -/
structure Session where
  id : String
  caseId : String
  treatment : Treatment
deriving DecidableEq

/-- One retrieval result dict as returned by `hybrid_search` and
(possibly) extended by `rerank`: the fusion `score` is always present,
every other key is optional (`r.get(...)` semantics). -/
structure SearchResult where
  score : ℚ
  rerankScore : Option ℚ := none
  party : Option String := none
  chunkId : Option String := none
  filename : Option String := none
  page : Option Nat := none
  text : Option String := none
  parentText : Option String := none
  enrichedText : Option String := none
deriving DecidableEq

/-- A citation record (models/challenge.py). -/
structure Citation where
  chunkId : String
  docName : String
  page : Nat
  snippet : String
deriving DecidableEq

/-- The shared response schema (models/challenge.py): both treatments and
the no-evidence terminal state use this one shape, unused fields left at
empty defaults. -/
structure ChallengeResponse where
  treatment : String
  queryUsed : String
  noEvidence : Bool := false
  summary : String := ""
  citations : List Citation := []
  partyAEvidence : String := ""
  partyACitations : List Citation := []
  partyBEvidence : String := ""
  partyBCitations : List Citation := []
deriving DecidableEq

/-- `_build_citations`: one citation per result, snippet bounded to 300
characters. -/
def buildCitations (results : List SearchResult) : List Citation :=
  results.map fun r =>
    { chunkId := r.chunkId.getD "", docName := r.filename.getD "Unknown",
      page := r.page.getD 0,
      snippet := String.mk ((r.text.getD "").toList.take 300) }

/-- `_format_evidence`: tag each result with `[filename, p.N]`, preferring
`parent_text` (when present and non-empty) over `text`, blocks separated
by a divider. -/
def formatEvidence (results : List SearchResult) : String :=
  String.intercalate "\n\n---\n\n"
    (results.map fun r =>
      let tag := "[" ++ r.filename.getD "Doc" ++ ", p."
        ++ (match r.page with | some p => toString p | none => "?") ++ "]"
      let text := if r.parentText.getD "" ≠ "" then r.parentText.getD ""
        else r.text.getD ""
      tag ++ "\n" ++ text)

/-- The fixed system instruction of `_generate_neutralizer`. -/
def neutralizerSystem : String :=
  "you are Axios, a neutral evidence presenter for mediation.\n"
    ++ "rules:\n"
    ++ "- remove emotional language\n"
    ++ "- use \x27the document states\x27 not \x27he said\x27\n"
    ++ "- include citation tags like [DocName, p.X] for every claim\n"
    ++ "- be concise and factual\n"
    ++ "- do not add information not in the evidence\n"
    ++ "- do not give legal advice"

/-- `_generate_neutralizer`: one merged summary over all gated results,
with one citation per result.  The chat capability is an explicit
function parameter. -/
def generateNeutralizer (chat : String → String → String)
    (queryText transcriptContext : String) (results : List SearchResult) :
    ChallengeResponse :=
  let citations := buildCitations results
  let evidenceText := formatEvidence results
  let user := "Current discussion:\n" ++ transcriptContext
    ++ "\n\nRetrieved evidence:\n" ++ evidenceText
  let summary := chat neutralizerSystem user
  { treatment := "neutralizer", queryUsed := queryText, summary := summary,
    citations := citations }

/-- The fixed system instruction of `_generate_side_by_side`. -/
def sideBySideSystem : String :=
  "you are Axios, a neutral evidence presenter for mediation.\n"
    ++ "rules:\n"
    ++ "- accurately reflect what the documents say\n"
    ++ "- include citation tags like [DocName, p.X]\n"
    ++ "- present evidence, not conclusions\n"
    ++ "- do not give legal advice"

/-- `_generate_side_by_side`: partition the gated results by party; a
party with no results short-circuits to a fixed string without invoking
the chat capability; otherwise its summary is generated from its own
evidence block. -/
def generateSideBySide (chat : String → String → String)
    (queryText transcriptContext : String) (results : List SearchResult) :
    ChallengeResponse :=
  let partyA := results.filter fun r => r.party == some "A"
  let partyB := results.filter fun r => r.party == some "B"
  let aText := if partyA ≠ [] then formatEvidence partyA else ""
  let bText := if partyB ≠ [] then formatEvidence partyB else ""
  let partyASummary :=
    if aText = "" then "no relevant evidence from Party A documents."
    else chat sideBySideSystem ("Current discussion:\n" ++ transcriptContext
      ++ "\n\nParty A documents:\n" ++ aText)
  let partyBSummary :=
    if bText = "" then "no relevant evidence from Party B documents."
    else chat sideBySideSystem ("Current discussion:\n" ++ transcriptContext
      ++ "\n\nParty B documents:\n" ++ bText)
  { treatment := "side_by_side", queryUsed := queryText,
    partyAEvidence := partyASummary, partyACitations := buildCitations partyA,
    partyBEvidence := partyBSummary, partyBCitations := buildCitations partyB }

/-- `run_challenge`: the retrieval funnel.  The session buffer
(`get_recent_turns`) is passed explicitly; the external capabilities —
query embedding, hybrid search with fusion, cross-encoder rerank, chat —
are function parameters; `q` is the query-window length of the
spec-modelled `get_query_turns`.  An empty buffer raises; an empty fusion
result set and an all-below-threshold gate return the no-evidence
response; otherwise the full reranked set flows into the synthesizer of
the session's treatment. -/
def runChallenge (q : Nat) (threshold : ℚ)
    (embedQuery : String → List ℚ)
    (hybridSearch : String → List ℚ → List SearchResult)
    (rerank : String → List SearchResult → List SearchResult)
    (chat : String → String → String)
    (session : Session) (bufferTurns : List Turn) :
    Except String ChallengeResponse :=
  if bufferTurns = [] then .error "no transcript data available"
  else
    let queryTurns := getQueryTurns q bufferTurns
    let queryText := formatTurns queryTurns
    let fullContext := formatTurns bufferTurns
    let queryEmbedding := embedQuery queryText
    let rawResults := hybridSearch queryText queryEmbedding
    if rawResults = [] then
      .ok { treatment := session.treatment.value
            queryUsed := queryText
            noEvidence := true }
    else
      let topResults := rerank queryText rawResults
      let useRerankKey := match topResults.head? with
        | some r => r.rerankScore.isSome
        | none => false
      let effScore := fun (r : SearchResult) =>
        if useRerankKey then r.rerankScore.getD 0 else r.score
      if topResults.all fun r => decide (effScore r < threshold) then
        .ok { treatment := session.treatment.value
              queryUsed := queryText
              noEvidence := true }
      else if session.treatment = .neutralizer then
        .ok (generateNeutralizer chat queryText fullContext topResults)
      else
        .ok (generateSideBySide chat queryText fullContext topResults)

/-! ## Claims -/

/-- C10: the transcript append operation rejects empty or whitespace-only
text with a caller-visible validation error; the session's buffer is left
unchanged — the text is neither added as a new turn nor merged into the
previous turn. -/
theorem c10_append_rejects_blank_text (w : Nat) (buffer : List Turn)
    (speaker text : String) (h : pyStrip text.toList = []) :
    transcriptWsStep w buffer speaker text = (buffer, .wsError "empty text") := by
  simp only [transcriptWsStep]
  rw [if_pos h]

/-- Witness for C10 at a concrete whitespace-only message. -/
theorem c10_append_rejects_blank_text_witness :
    transcriptWsStep 10 [⟨"Party A", "hi"⟩] "Party B" " \t\n " =
      ([⟨"Party A", "hi"⟩], .wsError "empty text") :=
  c10_append_rejects_blank_text 10 [⟨"Party A", "hi"⟩] "Party B" " \t\n "
    (by decide)

/-- C2 counterexample: at a concrete session whose transcript buffer is
empty, `run_challenge` does not return the no-evidence response — it
raises (`ValueError("no transcript data available")`, modelled as
`.error`), however the external capabilities behave. -/
theorem c2_counterexample :
    runChallenge 3 Settings.similarityThreshold (fun _ => [])
      (fun _ _ => []) (fun _ rs => rs) (fun _ _ => "")
      ⟨"s1", "case1", .neutralizer⟩ [] =
      .error "no transcript data available" := rfl

/-- C2 (amended): for a session with no transcript data `run_challenge`
raises a `ValueError` instead of returning the first-class no-evidence
outcome; the no-evidence response is reserved for the other terminal
states, e.g. an empty fusion result set. -/
theorem c2_empty_transcript_raises (q : Nat) (threshold : ℚ)
    (embedQuery : String → List ℚ)
    (hybridSearch : String → List ℚ → List SearchResult)
    (rerank : String → List SearchResult → List SearchResult)
    (chat : String → String → String) (session : Session) :
    runChallenge q threshold embedQuery hybridSearch rerank chat session [] =
      .error "no transcript data available" ∧
    ∀ buffer : List Turn, buffer ≠ [] →
      hybridSearch (formatTurns (getQueryTurns q buffer))
          (embedQuery (formatTurns (getQueryTurns q buffer))) = [] →
      runChallenge q threshold embedQuery hybridSearch rerank chat session
          buffer =
        .ok { treatment := session.treatment.value
              queryUsed := formatTurns (getQueryTurns q buffer)
              noEvidence := true } := by
  constructor
  · rfl
  · intro buffer hb hs
    simp [runChallenge, hb, hs]

/-- Witness for C2's amended theorem at a concrete session and buffer. -/
theorem c2_empty_transcript_raises_witness :
    runChallenge 3 Settings.similarityThreshold (fun _ => [])
        (fun _ _ => []) (fun _ rs => rs) (fun _ _ => "")
        ⟨"s1", "case1", .neutralizer⟩ [] =
      .error "no transcript data available" ∧
    runChallenge 3 Settings.similarityThreshold (fun _ => [])
        (fun _ _ => []) (fun _ rs => rs) (fun _ _ => "")
        ⟨"s1", "case1", .neutralizer⟩ [⟨"Mediator", "hello"⟩] =
      .ok { treatment := "neutralizer"
            queryUsed := "Mediator: hello"
            noEvidence := true } := by
  have h := c2_empty_transcript_raises 3 Settings.similarityThreshold
    (fun _ => []) (fun _ _ => []) (fun _ rs => rs) (fun _ _ => "")
    ⟨"s1", "case1", .neutralizer⟩
  exact ⟨h.1, h.2 [⟨"Mediator", "hello"⟩] (by decide) rfl⟩

/-- C1: the search query is built from only the last `q` turns of the
buffer — a suffix of length at most `q` (proper when the buffer is
longer than `q`), `q` at most the window size — rendered one
`"speaker: text"` line per turn in order, while every response carries
that rendering as its `query_used` and the full window is rendered
separately as the generation context (`runChallenge` passes
`formatTurns buffer` — not the query window — as the
`transcript_context` of the generators). -/
theorem c1_query_window_is_buffer_suffix (q : Nat) (threshold : ℚ)
    (embedQuery : String → List ℚ)
    (hybridSearch : String → List ℚ → List SearchResult)
    (rerank : String → List SearchResult → List SearchResult)
    (chat : String → String → String) (session : Session)
    (buffer : List Turn) (hbuf : buffer ≠ [])
    (hq : q ≤ Settings.transcriptTurns) :
    getQueryTurns q buffer <:+ buffer ∧
    (getQueryTurns q buffer).length ≤ q ∧
    (getQueryTurns q buffer).length ≤ Settings.transcriptTurns ∧
    (q < buffer.length → getQueryTurns q buffer ≠ buffer) ∧
    formatTurns (getQueryTurns q buffer) =
      String.intercalate "\n"
        ((getQueryTurns q buffer).map fun t => t.speaker ++ ": " ++ t.text) ∧
    (∀ resp, runChallenge q threshold embedQuery hybridSearch rerank chat
        session buffer = .ok resp →
      resp.queryUsed = formatTurns (getQueryTurns q buffer)) ∧
    (∀ resp, runChallenge q threshold embedQuery hybridSearch rerank chat
        session buffer = .ok resp → resp.noEvidence = false →
      resp = generateNeutralizer chat (formatTurns (getQueryTurns q buffer))
          (formatTurns buffer)
          (rerank (formatTurns (getQueryTurns q buffer))
            (hybridSearch (formatTurns (getQueryTurns q buffer))
              (embedQuery (formatTurns (getQueryTurns q buffer))))) ∨
        resp = generateSideBySide chat (formatTurns (getQueryTurns q buffer))
          (formatTurns buffer)
          (rerank (formatTurns (getQueryTurns q buffer))
            (hybridSearch (formatTurns (getQueryTurns q buffer))
              (embedQuery (formatTurns (getQueryTurns q buffer)))))) := by
  have hlen : (getQueryTurns q buffer).length ≤ q := by
    simp only [getQueryTurns, List.length_drop]
    omega
  refine ⟨List.drop_suffix _ _, hlen, hlen.trans hq, ?_, rfl, ?_, ?_⟩
  · intro hlt heq
    have := congrArg List.length heq
    simp only [getQueryTurns, List.length_drop] at this
    omega
  · intro resp h
    simp only [runChallenge, if_neg hbuf] at h
    repeat' split at h
    all_goals
      injection h with h2
      subst h2
      rfl
  · intro resp h hne
    simp only [runChallenge, if_neg hbuf] at h
    repeat' split at h
    all_goals
      injection h with h2
      subst h2
    all_goals first
      | exact .inl rfl
      | exact .inr rfl
      | exact absurd hne (by simp)

/-- The three-turn buffer used by the C1 witness. -/
def c1DemoBuffer : List Turn := [⟨"A", "x"⟩, ⟨"B", "y"⟩, ⟨"A", "z"⟩]

/-- Witness for C1 at a concrete three-turn buffer and `q = 2`. -/
theorem c1_query_window_is_buffer_suffix_witness :
    getQueryTurns 2 c1DemoBuffer <:+ c1DemoBuffer ∧
    (getQueryTurns 2 c1DemoBuffer).length ≤ 2 ∧
    (getQueryTurns 2 c1DemoBuffer).length ≤ Settings.transcriptTurns ∧
    (2 < c1DemoBuffer.length →
      getQueryTurns 2 c1DemoBuffer ≠ c1DemoBuffer) ∧
    formatTurns (getQueryTurns 2 c1DemoBuffer) =
      String.intercalate "\n"
        ((getQueryTurns 2 c1DemoBuffer).map
          fun t => t.speaker ++ ": " ++ t.text) ∧
    (∀ resp, runChallenge 2 Settings.similarityThreshold (fun _ => [])
        (fun _ _ => []) (fun _ rs => rs) (fun _ _ => "")
        ⟨"s1", "case1", .neutralizer⟩ c1DemoBuffer = .ok resp →
      resp.queryUsed = formatTurns (getQueryTurns 2 c1DemoBuffer)) ∧
    (∀ resp, runChallenge 2 Settings.similarityThreshold (fun _ => [])
        (fun _ _ => []) (fun _ rs => rs) (fun _ _ => "")
        ⟨"s1", "case1", .neutralizer⟩ c1DemoBuffer = .ok resp →
      resp.noEvidence = false →
      resp = generateNeutralizer (fun _ _ => "")
          (formatTurns (getQueryTurns 2 c1DemoBuffer))
          (formatTurns c1DemoBuffer)
          ((fun _ rs => rs : String → List SearchResult → List SearchResult)
            (formatTurns (getQueryTurns 2 c1DemoBuffer))
            ((fun _ _ => [] : String → List ℚ → List SearchResult)
              (formatTurns (getQueryTurns 2 c1DemoBuffer))
              ((fun _ => [] : String → List ℚ)
                (formatTurns (getQueryTurns 2 c1DemoBuffer))))) ∨
        resp = generateSideBySide (fun _ _ => "")
          (formatTurns (getQueryTurns 2 c1DemoBuffer))
          (formatTurns c1DemoBuffer)
          ((fun _ rs => rs : String → List SearchResult → List SearchResult)
            (formatTurns (getQueryTurns 2 c1DemoBuffer))
            ((fun _ _ => [] : String → List ℚ → List SearchResult)
              (formatTurns (getQueryTurns 2 c1DemoBuffer))
              ((fun _ => [] : String → List ℚ)
                (formatTurns (getQueryTurns 2 c1DemoBuffer)))))) :=
  c1_query_window_is_buffer_suffix 2 Settings.similarityThreshold
    (fun _ => []) (fun _ _ => []) (fun _ rs => rs) (fun _ _ => "")
    ⟨"s1", "case1", .neutralizer⟩ c1DemoBuffer
    (by decide) (by decide)

/-- `String.intercalate.go` only ever appends to its accumulator. -/
lemma intercalate_go_extends (s : String) :
    ∀ (as : List String) (acc : String),
      ∃ t, String.intercalate.go acc s as = acc ++ t
  | [], acc => ⟨"", by simp [String.intercalate.go]⟩
  | a :: as, acc => by
    obtain ⟨t, ht⟩ := intercalate_go_extends s as (acc ++ s ++ a)
    exact ⟨s ++ a ++ t, by
      show String.intercalate.go acc s (a :: as) = _
      rw [show String.intercalate.go acc s (a :: as) =
          String.intercalate.go (acc ++ s ++ a) s as from rfl, ht]
      simp [String.append_assoc]⟩

/-- A string whose character list starts with some character is not
empty. -/
lemma string_ne_empty_of_head (s : String) (c : Char) (u : List Char)
    (h : s.toList = c :: u) : s ≠ "" := by
  intro he
  rw [he] at h
  exact List.noConfusion h

/-- The evidence block of a non-empty result list is a non-empty string
(it starts with a `[filename, p.N]` tag). -/
lemma formatEvidence_cons_ne (r : SearchResult) (rs : List SearchResult) :
    formatEvidence (r :: rs) ≠ "" := by
  unfold formatEvidence
  simp only [List.map_cons]
  obtain ⟨t, ht⟩ := intercalate_go_extends "\n\n---\n\n"
    ((rs.map fun r =>
      let tag := "[" ++ r.filename.getD "Doc" ++ ", p."
        ++ (match r.page with | some p => toString p | none => "?") ++ "]"
      let text := if r.parentText.getD "" ≠ "" then r.parentText.getD ""
        else r.text.getD ""
      tag ++ "\n" ++ text))
    ("[" ++ r.filename.getD "Doc" ++ ", p."
      ++ (match r.page with | some p => toString p | none => "?") ++ "]"
      ++ "\n"
      ++ (if r.parentText.getD "" ≠ "" then r.parentText.getD ""
        else r.text.getD ""))
  rw [show ∀ (p : String) (ps : List String),
      String.intercalate "\n\n---\n\n" (p :: ps) =
        String.intercalate.go p "\n\n---\n\n" ps from fun _ _ => rfl]
  rw [ht]
  exact string_ne_empty_of_head _ '[' _ rfl

/-- C9: in side-by-side mode, a party with zero surviving results gets
the fixed no-relevant-evidence string and an empty citation list, and its
summary does not depend on the generation capability (it is never
invoked for that party); the other party's summary and citations are
built from its own results as usual.  Stated here for Party B empty and
Party A non-empty; the two parties are symmetric in the source. -/
theorem c9_side_by_side_short_circuit (chat chatB : String -> String -> String)
    (queryText ctx : String) (results : List SearchResult)
    (hB : results.filter (fun r => r.party == some "B") = [])
    (hA : results.filter (fun r => r.party == some "A") ≠ []) :
    (generateSideBySide chat queryText ctx results).partyBEvidence =
      "no relevant evidence from Party B documents." ∧
    (generateSideBySide chat queryText ctx results).partyBCitations = [] ∧
    (generateSideBySide chat queryText ctx results).partyBEvidence =
      (generateSideBySide chatB queryText ctx results).partyBEvidence ∧
    (generateSideBySide chat queryText ctx results).partyAEvidence =
      chat sideBySideSystem ("Current discussion:\n" ++ ctx
        ++ "\n\nParty A documents:\n"
        ++ formatEvidence (results.filter fun r => r.party == some "A")) ∧
    (generateSideBySide chat queryText ctx results).partyACitations =
      buildCitations (results.filter fun r => r.party == some "A") := by
  obtain ⟨r, rs, hcons⟩ := List.exists_cons_of_ne_nil hA
  simp only [generateSideBySide, hB, hcons]
  simp [formatEvidence_cons_ne r rs, buildCitations]

/-- A one-element Party-A result set used by the C9 witness. -/
def c9DemoResults : List SearchResult :=
  [{ score := 1, party := some "A", filename := some "a.pdf",
     page := some 2, text := some "hello" }]

/-- Witness for C9 at a concrete result set with one Party-A result and
no Party-B result. -/
theorem c9_side_by_side_short_circuit_witness :
    (generateSideBySide (fun _ u => u) "q" "ctx" c9DemoResults).partyBEvidence =
      "no relevant evidence from Party B documents." ∧
    (generateSideBySide (fun _ u => u) "q" "ctx" c9DemoResults).partyBCitations
      = [] ∧
    (generateSideBySide (fun _ u => u) "q" "ctx" c9DemoResults).partyBEvidence =
      (generateSideBySide (fun _ _ => "other oracle") "q" "ctx"
        c9DemoResults).partyBEvidence ∧
    (generateSideBySide (fun _ u => u) "q" "ctx" c9DemoResults).partyAEvidence =
      (fun _ u => u : String -> String -> String) sideBySideSystem
        ("Current discussion:\n" ++ "ctx" ++ "\n\nParty A documents:\n"
          ++ formatEvidence
            (c9DemoResults.filter fun r => r.party == some "A")) ∧
    (generateSideBySide (fun _ u => u) "q" "ctx"
        c9DemoResults).partyACitations =
      buildCitations (c9DemoResults.filter fun r => r.party == some "A") :=
  c9_side_by_side_short_circuit (fun _ u => u) (fun _ _ => "other oracle")
    "q" "ctx" c9DemoResults (by decide) (by decide)

/-- C3: for a non-empty reranked candidate set (uniform in whether the
reranker attached scores, as the real reranker output always is),
`run_challenge` returns the no-evidence response if and only if every
candidate's effective score — reranker score when reranking occurred,
else fusion score — is strictly below the threshold; and when at least
one candidate meets or exceeds the threshold, the entire surviving set
proceeds to synthesis (the synthesizer of the session's treatment is
applied to the full list `top`, not a filtered one). -/
theorem c3_threshold_gate_all_or_nothing (q : Nat) (threshold : ℚ)
    (embedQuery : String → List ℚ)
    (hybridSearch : String → List ℚ → List SearchResult)
    (rerank : String → List SearchResult → List SearchResult)
    (chat : String → String → String) (session : Session)
    (buffer : List Turn) (top : List SearchResult)
    (hbuf : buffer ≠ [])
    (hraw : hybridSearch (formatTurns (getQueryTurns q buffer))
      (embedQuery (formatTurns (getQueryTurns q buffer))) ≠ [])
    (htop : rerank (formatTurns (getQueryTurns q buffer))
      (hybridSearch (formatTurns (getQueryTurns q buffer))
        (embedQuery (formatTurns (getQueryTurns q buffer)))) = top)
    (htopne : top ≠ [])
    (huniform : (∀ r ∈ top, r.rerankScore.isSome) ∨
      ∀ r ∈ top, r.rerankScore = none) :
    ((∃ resp, runChallenge q threshold embedQuery hybridSearch rerank chat
        session buffer = .ok resp ∧ resp.noEvidence = true) ↔
      ∀ r ∈ top, r.rerankScore.getD r.score < threshold) ∧
    ((∃ r ∈ top, threshold ≤ r.rerankScore.getD r.score) →
      runChallenge q threshold embedQuery hybridSearch rerank chat session
          buffer =
        .ok (if session.treatment = .neutralizer then
          generateNeutralizer chat (formatTurns (getQueryTurns q buffer))
            (formatTurns buffer) top
        else
          generateSideBySide chat (formatTurns (getQueryTurns q buffer))
            (formatTurns buffer) top)) := by
  obtain ⟨r0, t0, hcons⟩ := List.exists_cons_of_ne_nil htopne
  have hhead : top.head? = some r0 := by rw [hcons]; rfl
  have heff : ∀ r ∈ top,
      (if (match top.head? with
          | some rr => rr.rerankScore.isSome
          | none => false) = true then r.rerankScore.getD 0 else r.score) =
        r.rerankScore.getD r.score := by
    intro r hr
    rcases huniform with hsome | hnone
    · obtain ⟨x, hx⟩ := Option.isSome_iff_exists.mp (hsome r hr)
      rw [hhead]
      simp only [hsome r0 (hcons ▸ List.mem_cons_self r0 t0), if_true, hx]
      rfl
    · rw [hhead]
      simp only [hnone r0 (hcons ▸ List.mem_cons_self r0 t0),
        Option.isSome_none, Bool.false_eq_true, if_false]
      rw [hnone r hr]
      rfl
  by_cases hgate : ∀ r ∈ top, r.rerankScore.getD r.score < threshold
  · have hall : (top.all fun r => decide ((if (match top.head? with
        | some rr => rr.rerankScore.isSome
        | none => false) = true then r.rerankScore.getD 0 else r.score) <
          threshold)) = true := by
      rw [List.all_eq_true]
      intro r hr
      rw [heff r hr]
      exact decide_eq_true (hgate r hr)
    have hrun : runChallenge q threshold embedQuery hybridSearch rerank chat
        session buffer =
        .ok { treatment := session.treatment.value
              queryUsed := formatTurns (getQueryTurns q buffer)
              noEvidence := true } := by
      simp only [runChallenge, if_neg hbuf]
      rw [if_neg hraw, htop, if_pos hall]
    refine ⟨?_, ?_⟩
    · exact ⟨fun _ => hgate, fun _ => ⟨_, hrun, rfl⟩⟩
    · rintro ⟨r, hr, hth⟩
      exact absurd (hgate r hr) (not_lt.mpr hth)
  · have hall : ¬((top.all fun r => decide ((if (match top.head? with
        | some rr => rr.rerankScore.isSome
        | none => false) = true then r.rerankScore.getD 0 else r.score) <
          threshold)) = true) := by
      intro hc
      apply hgate
      intro r hr
      have := List.all_eq_true.mp hc r hr
      rw [heff r hr] at this
      exact of_decide_eq_true this
    have hrun : runChallenge q threshold embedQuery hybridSearch rerank chat
        session buffer =
        .ok (if session.treatment = .neutralizer then
          generateNeutralizer chat (formatTurns (getQueryTurns q buffer))
            (formatTurns buffer) top
        else
          generateSideBySide chat (formatTurns (getQueryTurns q buffer))
            (formatTurns buffer) top) := by
      simp only [runChallenge, if_neg hbuf]
      rw [if_neg hraw, htop, if_neg hall]
      by_cases ht : session.treatment = .neutralizer
      · rw [if_pos ht, if_pos ht]
      · rw [if_neg ht, if_neg ht]
    refine ⟨⟨?_, fun h => absurd h hgate⟩, fun _ => hrun⟩
    rintro ⟨resp, hresp, hnoev⟩
    rw [hrun] at hresp
    injection hresp with h2
    subst h2
    by_cases ht : session.treatment = .neutralizer
    · rw [if_pos ht] at hnoev
      exact Bool.noConfusion hnoev
    · rw [if_neg ht] at hnoev
      exact Bool.noConfusion hnoev

/-- A one-element reranked candidate set used by the C3 witness. -/
def c3DemoResult : SearchResult := { score := 1, rerankScore := some 1 }

/-- The session used by the C3 witness. -/
def c3DemoSession : Session := ⟨"s1", "case1", .neutralizer⟩

/-- Witness for C3 at a concrete candidate whose reranker score passes
the configured threshold. -/
theorem c3_threshold_gate_all_or_nothing_witness :
    ((∃ resp, runChallenge 2 Settings.similarityThreshold (fun _ => [])
        (fun _ _ => [c3DemoResult]) (fun _ rs => rs) (fun _ _ => "sum")
        c3DemoSession [⟨"Mediator", "hi"⟩] = .ok resp ∧
        resp.noEvidence = true) ↔
      ∀ r ∈ [c3DemoResult],
        r.rerankScore.getD r.score < Settings.similarityThreshold) ∧
    ((∃ r ∈ [c3DemoResult],
        Settings.similarityThreshold ≤ r.rerankScore.getD r.score) →
      runChallenge 2 Settings.similarityThreshold (fun _ => [])
          (fun _ _ => [c3DemoResult]) (fun _ rs => rs) (fun _ _ => "sum")
          c3DemoSession [⟨"Mediator", "hi"⟩] =
        .ok (if c3DemoSession.treatment = .neutralizer then
          generateNeutralizer (fun _ _ => "sum")
            (formatTurns (getQueryTurns 2 [⟨"Mediator", "hi"⟩]))
            (formatTurns [⟨"Mediator", "hi"⟩]) [c3DemoResult]
        else
          generateSideBySide (fun _ _ => "sum")
            (formatTurns (getQueryTurns 2 [⟨"Mediator", "hi"⟩]))
            (formatTurns [⟨"Mediator", "hi"⟩]) [c3DemoResult])) :=
  c3_threshold_gate_all_or_nothing 2 Settings.similarityThreshold
    (fun _ => []) (fun _ _ => [c3DemoResult]) (fun _ rs => rs)
    (fun _ _ => "sum") c3DemoSession [⟨"Mediator", "hi"⟩] [c3DemoResult]
    (by decide) (by decide) rfl (by decide) (.inl (by decide))

/-- Truncating the empty buffer leaves it empty. -/
lemma enforceWindow_nil (w : Nat) : enforceWindow w [] = [] := by
  simp [enforceWindow]

/-- A window of size zero truncates everything away. -/
lemma enforceWindow_zero (l : List Turn) : enforceWindow 0 l = [] := by
  simp [enforceWindow]

/-- A buffer already within the window is left unchanged. -/
lemma enforceWindow_of_le (w : Nat) (l : List Turn) (h : l.length ≤ w) :
    enforceWindow w l = l := by
  simp [enforceWindow, Nat.sub_eq_zero_of_le h]

/-- With a positive window, truncation never touches the most recent
turn. -/
lemma enforceWindow_getLast? (w : Nat) (l : List Turn) (hw : 1 ≤ w)
    (hl : l ≠ []) : (enforceWindow w l).getLast? = l.getLast? := by
  obtain ⟨t, ht⟩ := List.drop_suffix (l.length - w) l
  have hlpos : 0 < l.length := List.length_pos.mpr hl
  have hne : l.drop (l.length - w) ≠ [] := by
    intro hc
    have := congrArg List.length hc
    rw [List.length_drop] at this
    simp at this
    omega
  conv_rhs => rw [← ht]
  exact (List.getLast?_append_of_ne_nil t hne).symm

/-- `dropLast` commutes with dropping a strict-prefix amount. -/
lemma dropLast_drop_comm (l : List Turn) (k : Nat) (h : k + 1 ≤ l.length) :
    (l.drop k).dropLast = l.dropLast.drop k := by
  rw [List.dropLast_eq_take, List.dropLast_eq_take, List.length_drop,
    List.drop_take]
  congr 1
  omega

/-- Appending a turn commutes with pre-truncation: truncating, appending
and truncating again agrees with appending then truncating. -/
lemma enforceWindow_append (w : Nat) (l : List Turn) (x : Turn)
    (hw : 1 ≤ w) :
    enforceWindow w (enforceWindow w l ++ [x]) = enforceWindow w (l ++ [x]) := by
  by_cases h : l.length ≤ w
  · rw [enforceWindow_of_le w l h]
  · unfold enforceWindow
    rw [List.drop_append_of_le_length
        (by simp [List.length_drop]; omega),
      List.drop_append_of_le_length (by simp; omega)]
    rw [List.drop_drop]
    congr 2
    simp only [List.length_append, List.length_drop, List.length_cons,
      List.length_nil]
    omega

/-- Merging into the last turn commutes with pre-truncation. -/
lemma enforceWindow_updLast (w : Nat) (l : List Turn) (x : Turn)
    (hw : 1 ≤ w) (hl : l ≠ []) :
    enforceWindow w ((enforceWindow w l).dropLast ++ [x]) =
      enforceWindow w (l.dropLast ++ [x]) := by
  by_cases h : l.length ≤ w
  · rw [enforceWindow_of_le w l h]
  · have hlpos : 0 < l.length := List.length_pos.mpr hl
    have hlen : (enforceWindow w l).length = w := by
      simp only [enforceWindow, List.length_drop]
      omega
    have hLHS : ((enforceWindow w l).dropLast ++ [x]).length = w := by
      rw [List.length_append, List.length_dropLast, hlen]
      simp
      omega
    rw [enforceWindow_of_le w _ (le_of_eq hLHS)]
    show (l.drop (l.length - w)).dropLast ++ [x] = _
    unfold enforceWindow
    rw [List.drop_append_of_le_length (by simp; omega)]
    rw [dropLast_drop_comm l (l.length - w) (by omega)]
    congr 2
    simp only [List.length_append, List.length_dropLast, List.length_cons,
      List.length_nil]
    omega

/-- `add_turn` applied to a truncated buffer produces the same buffer as
merging into the untruncated buffer and truncating once. -/
lemma addTurn_enforceWindow (w : Nat) (buf : List Turn) (s t : String) :
    addTurn w (enforceWindow w buf) s t = enforceWindow w (mergeTurn buf s t) := by
  rcases Nat.eq_zero_or_pos w with h0 | hw
  · subst h0
    show enforceWindow 0 _ = enforceWindow 0 _
    rw [enforceWindow_zero, enforceWindow_zero]
  · by_cases hbuf : buf = []
    · subst hbuf
      rw [enforceWindow_nil]
      rfl
    · obtain ⟨last, hlast⟩ :=
        Option.isSome_iff_exists.mp (List.getLast?_isSome.mpr hbuf)
      have hElast : (enforceWindow w buf).getLast? = some last := by
        rw [enforceWindow_getLast? w buf hw hbuf, hlast]
      unfold addTurn mergeTurn
      rw [hElast, hlast]
      dsimp only
      by_cases hsp : last.speaker = s
      · rw [if_pos hsp, if_pos hsp]
        exact enforceWindow_updLast w buf _ hw hbuf
      · rw [if_neg hsp, if_neg hsp]
        exact enforceWindow_append w buf _ hw

/-- C5: rehydrating an empty buffer by replaying the persisted raw turns
oldest-first through the merge-on-append rule and truncating once
(`_hydrate_from_db`) yields exactly the buffer produced by appending the
same turns directly through `add_turn` with truncation after each append
— the same turns, speakers, texts and order, for every window size and
every raw-turn sequence. -/
theorem c5_rehydration_equals_direct_appends (w : Nat)
    (rows : List (String × String)) :
    hydrateFromDb w rows = replayAppends w rows := by
  have key : ∀ (rs : List (String × String)) (buf : List Turn),
      rs.foldl (fun acc r => addTurn w acc r.1 r.2) (enforceWindow w buf) =
        enforceWindow w (rs.foldl (fun acc r => mergeTurn acc r.1 r.2) buf) := by
    intro rs
    induction rs with
    | nil => intro buf; rfl
    | cons r rs ih =>
      intro buf
      simp only [List.foldl_cons]
      rw [addTurn_enforceWindow, ih (mergeTurn buf r.1 r.2)]
  unfold hydrateFromDb replayAppends
  by_cases hrows : rows = []
  · rw [if_pos hrows, hrows]
    rfl
  · rw [if_neg hrows]
    have h := key rows []
    rw [enforceWindow_nil] at h
    exact h.symm

/-- The sliding-window loop never exhausts a fuel of
`text.length - start + 1`: every iteration either stops or advances the
window start strictly past the previous chunk's start. -/
lemma splitLoop_fuel_sufficient (doc : Doc) (page : Nat) (text : List Char)
    (sectionTitle : String) (size overlap : Nat) :
    ∀ (fuel start : Nat) (acc : List Chunk), text.length ≤ start + fuel →
      (splitLoop doc page text sectionTitle size overlap fuel start acc).isSome := by
  intro fuel
  induction fuel with
  | zero =>
    intro start acc h
    unfold splitLoop
    rw [if_pos (by omega : text.length ≤ start)]
    rfl
  | succ n ih =>
    intro start acc h
    unfold splitLoop
    by_cases hs : text.length ≤ start
    · rw [if_pos hs]
      rfl
    · rw [if_neg hs]
      dsimp only
      repeat' split
      all_goals first
        | rfl
        | (apply ih; omega)

/-- C7: the chunk splitter's sliding-window loop terminates in finitely
many steps — at most `text.length + 1` iterations — for every non-empty
stripped section text and every overlap smaller than the chunk size
(every overlap percentage in `[0, 1)`): each iteration either advances
the window start strictly past the previous chunk's start or the
degenerate-shrink guard stops the loop, so the fuelled loop returns a
result instead of running out. -/
theorem c7_sliding_window_terminates (doc : Doc) (page : Nat)
    (sectionTitle sectionText : String) (size overlap : Nat)
    (hoverlap : overlap < size) (hne : pyStrip sectionText.toList ≠ []) :
    (splitLoop doc page (pyStrip sectionText.toList) sectionTitle size overlap
      ((pyStrip sectionText.toList).length + 1) 0 []).isSome :=
  splitLoop_fuel_sufficient doc page _ sectionTitle size overlap _ 0 []
    (by omega)

/-- Witness for C7 at a concrete section, chunk size and overlap. -/
theorem c7_sliding_window_terminates_witness :
    (splitLoop ⟨"d", "c1", "A", "a.pdf"⟩ 1
      (pyStrip ("one two three. four five six seven." : String).toList) "t"
      10 1
      ((pyStrip ("one two three. four five six seven." : String).toList).length
        + 1) 0 []).isSome :=
  c7_sliding_window_terminates ⟨"d", "c1", "A", "a.pdf"⟩ 1 "t"
    "one two three. four five six seven." 10 1 (by decide) (by decide)

/-- A non-negative `rfind` result is a real occurrence: the found index
plus the pattern length fits within the string. -/
lemma pyRfind_bound (l sub : List Char) (i : Int) (h : pyRfind l sub = i)
    (hpos : 0 ≤ i) : i.toNat + sub.length ≤ l.length := by
  unfold pyRfind at h
  cases hg : ((List.range (l.length + 1)).filter (matchAt l sub)).getLast? with
  | none =>
    rw [hg] at h
    simp at h
    omega
  | some k =>
    rw [hg] at h
    simp at h
    rcases List.mem_filter.mp (List.mem_of_mem_getLast? hg) with ⟨hkr, hkm⟩
    have hkl : k < l.length + 1 := List.mem_range.mp hkr
    have hmatch : (l.drop k).take sub.length = sub := by
      simpa [matchAt] using hkm
    have hlen := congrArg List.length hmatch
    rw [List.length_take, List.length_drop] at hlen
    omega

/-- The window slice of one iteration has length `end - start`. -/
lemma pySlice_length (l : List Char) (a b : Nat) (hb : b ≤ l.length) :
    (pySlice l a b).length = b - a := by
  simp [pySlice, List.length_take, List.length_drop]
  omega

/-- The window end of one iteration moves strictly past the start and
stays within the text. -/
lemma splitEnd_bounds (text : List Char) (start size : Nat) (hsize : 1 ≤ size)
    (hs : start < text.length) :
    start < splitEnd text start size ∧ splitEnd text start size ≤ text.length := by
  unfold splitEnd
  dsimp only
  have hmr : min (start + size) text.length ≤ text.length := min_le_right _ _
  have hml : start < min (start + size) text.length :=
    lt_min (by omega) hs
  have hct0 : (pySlice text start (min (start + size) text.length)).length =
      min (start + size) text.length - start :=
    pySlice_length text start _ hmr
  by_cases hcond : min (start + size) text.length < text.length ∧
      50 < (pySlice text start (min (start + size) text.length)).length
  · rw [if_pos hcond]
    by_cases hbr :
        ((pySlice text start (min (start + size) text.length)).length : Int) <
          2 * (max (pyRfind (pySlice text start (min (start + size) text.length))
            ['.', ' '])
            (pyRfind (pySlice text start (min (start + size) text.length))
              ['\n']))
    · rw [if_pos hbr]
      set br := max
        (pyRfind (pySlice text start (min (start + size) text.length))
          ['.', ' '])
        (pyRfind (pySlice text start (min (start + size) text.length))
          ['\n']) with hbrdef
      have hbrpos : 0 ≤ br := by omega
      have hbound : br.toNat + 1 ≤
          (pySlice text start (min (start + size) text.length)).length := by
        rcases max_choice
          (pyRfind (pySlice text start (min (start + size) text.length))
            ['.', ' '])
          (pyRfind (pySlice text start (min (start + size) text.length))
            ['\n']) with hmax | hmax
        · have hb := pyRfind_bound _ ['.', ' '] br
            (by rw [hbrdef, hmax]) hbrpos
          simp at hb
          omega
        · have hb := pyRfind_bound _ ['\n'] br
            (by rw [hbrdef, hmax]) hbrpos
          simp at hb
          omega
      omega
    · rw [if_neg hbr]
      omega
  · rw [if_neg hcond]
    omega

/-- `dropWhile` is idempotent. -/
lemma dropWhile_dropWhile (p : Char → Bool) :
    ∀ l : List Char, (l.dropWhile p).dropWhile p = l.dropWhile p
  | [] => rfl
  | c :: t => by
    by_cases hc : p c
    · rw [List.dropWhile_cons_of_pos hc]
      exact dropWhile_dropWhile p t
    · rw [List.dropWhile_cons_of_neg hc, List.dropWhile_cons_of_neg hc]

/-- If `dropWhile` leaves a list unchanged, its head does not satisfy the
predicate. -/
lemma head_not_of_dropWhile_eq (p : Char → Bool) (c : Char) (t : List Char)
    (h : (c :: t).dropWhile p = c :: t) : p c = false := by
  by_contra hc
  rw [List.dropWhile_cons_of_pos (by simpa using hc)] at h
  have hlen := congrArg List.length h
  have hle : (t.dropWhile p).length ≤ t.length :=
    (List.dropWhile_suffix p).length_le
  simp at hlen
  omega

/-- A prefix of a `dropWhile`-fixed list is itself `dropWhile`-fixed. -/
lemma dropWhile_eq_self_of_prefix (p : Char → Bool) (l m : List Char)
    (hm : m <+: l) (hl : l.dropWhile p = l) : m.dropWhile p = m := by
  cases m with
  | nil => rfl
  | cons c t =>
    obtain ⟨r, hr⟩ := hm
    rw [← hr, List.cons_append] at hl
    have hc := head_not_of_dropWhile_eq p c (t ++ r) hl
    rw [List.dropWhile_cons_of_neg (by simp [hc])]

/-- The stripped text is a prefix of the leading-whitespace-free part. -/
lemma pyStrip_prefix_dropWhile (l : List Char) :
    pyStrip l <+: l.dropWhile pyWs := by
  have h : (l.dropWhile pyWs).reverse.dropWhile pyWs <:+
      (l.dropWhile pyWs).reverse := List.dropWhile_suffix pyWs
  have h2 := List.reverse_prefix.mpr h
  rw [List.reverse_reverse] at h2
  exact h2

/-- Stripping produces an infix of the original text. -/
lemma pyStrip_substring (l : List Char) : pyStrip l <:+: l :=
  (pyStrip_prefix_dropWhile l).isInfix.trans
    (List.dropWhile_suffix pyWs).isInfix

/-- On a text without leading whitespace, stripping produces a prefix. -/
lemma pyStrip_prefix_of_no_leading (l : List Char)
    (h : l.dropWhile pyWs = l) : pyStrip l <+: l := by
  have := pyStrip_prefix_dropWhile l
  rwa [h] at this

/-- `strip` is idempotent. -/
lemma pyStrip_idem (l : List Char) : pyStrip (pyStrip l) = pyStrip l := by
  have h1 : (l.dropWhile pyWs).dropWhile pyWs = l.dropWhile pyWs :=
    dropWhile_dropWhile pyWs l
  have hrev : (pyStrip l).reverse = (l.dropWhile pyWs).reverse.dropWhile pyWs := by
    unfold pyStrip
    rw [List.reverse_reverse]
  have h2 : (pyStrip l).reverse.dropWhile pyWs = (pyStrip l).reverse := by
    rw [hrev]
    exact dropWhile_dropWhile pyWs _
  have h3 : (pyStrip l).dropWhile pyWs = pyStrip l :=
    dropWhile_eq_self_of_prefix pyWs _ _ (pyStrip_prefix_dropWhile l) h1
  show (((pyStrip l).dropWhile pyWs).reverse.dropWhile pyWs).reverse = pyStrip l
  rw [h3, h2, List.reverse_reverse]

/-- Slicing below the length of a prefix agrees with slicing the full
list. -/
lemma pySlice_prefix_eq (l m : List Char) (a b : Nat) (hm : m <+: l)
    (hb : b ≤ m.length) : pySlice l a b = pySlice m a b := by
  have hm2 := List.prefix_iff_eq_take.mp hm
  rw [hm2]
  unfold pySlice
  rw [List.drop_take, List.take_take]
  congr 1
  omega

/-- A slice is an infix of the sliced list. -/
lemma pySlice_substring (l : List Char) (a b : Nat) : pySlice l a b <:+: l := by
  refine ⟨l.take a, (l.drop a).drop (b - a), ?_⟩
  rw [List.append_assoc]
  unfold pySlice
  rw [List.take_append_drop, List.take_append_drop]

/-- Every chunk the sliding-window loop appends satisfies the offset and
substring invariants: `start < end ≤ len(text)`, the chunk text is the
stripped `[start, end)` slice of the stripped section, and the stripped
section is its parent text. -/
lemma splitLoop_inv (doc : Doc) (page : Nat) (text : List Char)
    (sectionTitle : String) (size overlap : Nat) (hsize : 1 ≤ size) :
    ∀ (fuel start : Nat) (acc out : List Chunk),
      splitLoop doc page text sectionTitle size overlap fuel start acc =
        some out →
      ∀ c ∈ out, c ∈ acc ∨
        (c.startChar < c.endChar ∧ c.endChar ≤ text.length ∧
          c.text = String.mk (pyStrip (pySlice text c.startChar c.endChar)) ∧
          c.parentText = String.mk text) := by
  intro fuel
  induction fuel with
  | zero =>
    intro start acc out h c hc
    unfold splitLoop at h
    by_cases hs : text.length ≤ start
    · rw [if_pos hs] at h
      injection h with h2
      subst h2
      exact .inl hc
    · rw [if_neg hs] at h
      exact Option.noConfusion h
  | succ n ih =>
    intro start acc out h c hc
    unfold splitLoop at h
    by_cases hs : text.length ≤ start
    · rw [if_pos hs] at h
      injection h with h2
      subst h2
      exact .inl hc
    · rw [if_neg hs] at h
      dsimp only at h
      have hE := splitEnd_bounds text start size hsize (by omega)
      split at h
      · injection h with h2
        subst h2
        rcases List.mem_append.mp hc with h3 | h3
        · exact .inl h3
        · rw [List.mem_singleton] at h3
          subst h3
          exact .inr ⟨hE.1, hE.2, rfl, rfl⟩
      · split at h
        · injection h with h2
          subst h2
          rcases List.mem_append.mp hc with h3 | h3
          · exact .inl h3
          · rw [List.mem_singleton] at h3
            subst h3
            exact .inr ⟨hE.1, hE.2, rfl, rfl⟩
        · rcases ih _ _ out h c hc with h3 | h3
          · rcases List.mem_append.mp h3 with h4 | h4
            · exact .inl h4
            · rw [List.mem_singleton] at h4
              subst h4
              exact .inr ⟨hE.1, hE.2, rfl, rfl⟩
          · exact .inr h3

/-- C6 (amended): for every chunk emitted by the chunk splitter from a
flushed section without leading whitespace (as every section flushed by
`_chunk_pages` is — sections are blank-line-joined stripped paragraphs):
`0 ≤ start_char < end_char` (the lower bound holds by the `Nat` offsets),
the chunk's `text` equals the stripped slice
`original_section[start_char:end_char]`, and the text is a verbatim
substring of its `parent_text`.  The original claim's remaining conjunct
— that the trimmed text is always non-empty — is refuted by
`c6_trimmed_text_nonempty_counterexample`: a window slice that is
entirely whitespace trims to the empty string. -/
theorem c6_chunk_offsets_and_substring (doc : Doc) (page : Nat)
    (sectionTitle sectionText : String) (size overlap : Nat)
    (hsize : 1 ≤ size)
    (hlead : sectionText.toList.dropWhile pyWs = sectionText.toList) :
    ∀ c ∈ splitIntoChunks [] doc page sectionText sectionTitle size overlap,
      c.startChar < c.endChar ∧
      c.text = pyStripS (String.mk
        (pySlice sectionText.toList c.startChar c.endChar)) ∧
      c.text.toList <:+: c.parentText.toList := by
  intro c hc
  unfold splitIntoChunks at hc
  by_cases h0 : pyStrip sectionText.toList = []
  · rw [if_pos h0] at hc
    exact absurd hc (List.not_mem_nil c)
  · rw [if_neg h0] at hc
    have hpre : pyStrip sectionText.toList <+: sectionText.toList :=
      pyStrip_prefix_of_no_leading sectionText.toList hlead
    by_cases h1 : (pyStrip sectionText.toList).length ≤ size
    · rw [if_pos h1] at hc
      simp only [List.nil_append, List.mem_singleton] at hc
      subst hc
      refine ⟨List.length_pos.mpr h0, ?_, ?_⟩
      · show String.mk (pyStrip sectionText.toList) =
          pyStripS (String.mk (pySlice sectionText.toList 0
            (pyStrip sectionText.toList).length))
        rw [pySlice_prefix_eq sectionText.toList (pyStrip sectionText.toList)
          0 (pyStrip sectionText.toList).length hpre le_rfl]
        unfold pySlice pyStripS
        rw [List.drop_zero, Nat.sub_zero, List.take_length]
        show String.mk (pyStrip sectionText.toList) =
          String.mk (pyStrip (pyStrip sectionText.toList))
        rw [pyStrip_idem]
      · exact List.infix_rfl
    · rw [if_neg h1] at hc
      obtain ⟨out, hout⟩ := Option.isSome_iff_exists.mp
        (splitLoop_fuel_sufficient doc page (pyStrip sectionText.toList)
          sectionTitle size overlap ((pyStrip sectionText.toList).length + 1)
          0 [] (by omega))
      rw [hout, Option.getD_some] at hc
      rcases splitLoop_inv doc page (pyStrip sectionText.toList) sectionTitle
          size overlap hsize _ 0 [] out hout c hc with h3 | h3
      · exact absurd h3 (List.not_mem_nil c)
      · obtain ⟨hlt, hle, htext, hparent⟩ := h3
        refine ⟨hlt, ?_, ?_⟩
        · rw [htext,
            pySlice_prefix_eq sectionText.toList (pyStrip sectionText.toList)
              c.startChar c.endChar hpre hle]
          rfl
        · rw [htext, hparent]
          show (String.mk (pyStrip (pySlice (pyStrip sectionText.toList)
            c.startChar c.endChar))).toList <:+: _
          exact (pyStrip_substring _).trans (pySlice_substring _ _ _)

/-- The middle chunk the splitter emits from a concrete two-sentence
section at chunk size 20 / overlap 3; used by the C6 witness. -/
def c6DemoChunk : Chunk :=
  { id := "d:1:17-37", docId := "d", caseId := "c1", party := "A",
    filename := "a.pdf", page := 1, startChar := 17, endChar := 37,
    text := "r. five six seven ei",
    parentText := "one two three four. five six seven eight nine ten.",
    sectionTitle := "t" }

/-- Witness for C6's amended theorem at the concrete middle chunk of a
two-sentence section split with chunk size 20 and overlap 3. -/
theorem c6_chunk_offsets_and_substring_witness :
    c6DemoChunk.startChar < c6DemoChunk.endChar ∧
    c6DemoChunk.text = pyStripS (String.mk
      (pySlice ("one two three four. five six seven eight nine ten." :
        String).toList c6DemoChunk.startChar c6DemoChunk.endChar)) ∧
    c6DemoChunk.text.toList <:+: c6DemoChunk.parentText.toList :=
  c6_chunk_offsets_and_substring ⟨"d", "c1", "A", "a.pdf"⟩ 1 "t"
    "one two three four. five six seven eight nine ten." 20 3
    (by decide) (by decide) c6DemoChunk (by decide)

set_option maxRecDepth 40000 in
/-- C6 counterexample: a section consisting of two non-blank characters
separated by a long run of spaces makes the splitter emit middle chunks
whose windows are entirely whitespace, so their trimmed text is the empty
string — refuting the claim's invariant that every emitted chunk has
non-empty trimmed text.  Shown at chunk size 60 / overlap 9 so the kernel
can evaluate it; the same shape fails at the configured 1200 / 180 sizes
with 3000 separating spaces (`"a" + " "*3000 + "b"` yields the chunk
texts `["a", "", "b"]`). -/
theorem c6_trimmed_text_nonempty_counterexample :
    ((splitIntoChunks [] ⟨"d", "c1", "A", "a.pdf"⟩ 1
      (String.mk ('a' :: (List.replicate 200 ' ' ++ ['b']))) "t" 60 9).map
        Chunk.text) = ["a", "", "", "b"] := by decide

/-- A one-page document whose page holds two sections (separated by the
heading `TITLE`) with equally long stripped texts; used to exhibit the
chunk-id collision of C8. -/
def dupDemoChunks : List Chunk :=
  chunkPages ⟨"d", "c1", "A", "a.pdf"⟩
    [(1, "hello world\n\nTITLE\n\ngamma delta")]

set_option maxRecDepth 40000 in
/-- C8: chunk ids do not uniquely identify distinct chunks of a document.
`start_char`/`end_char` are measured relative to each flushed section, so
one page holding two sections whose stripped texts have equal length
(here both of length 11, each fitting in one target chunk) yields two
chunks with different texts but the identical id `d:1:0-11`; the index
point id is a deterministic function (`_chunk_id_to_point_id`) of the
chunk id, so the two chunks' index points coincide and the later upsert
(and the `ON CONFLICT (id)` database row) overwrites the earlier one. -/
theorem c8_duplicate_chunk_ids :
    dupDemoChunks.map Chunk.id = ["d:1:0-11", "d:1:0-11"] ∧
    dupDemoChunks.map Chunk.text = ["hello world", "gamma delta"] ∧
    dupDemoChunks.map (fun c => chunkIdToPointId c.id) =
      ["d1eb1e56-36c7-7167-40ea-0a970a9c6ab8",
       "d1eb1e56-36c7-7167-40ea-0a970a9c6ab8"] := by
  refine ⟨by decide, by decide, by decide⟩

/-- Boolean equality of naturals, from a proof of disequality. -/
lemma nat_beq_false {x y : Nat} (h : x ≠ y) : (x == y) = false := by
  simp [h]

/-- `insertAdd` leaves the key list unchanged when the key is present and
appends it when absent. -/
lemma insertAdd_keys (m : List (Nat × Nat)) (k v : Nat) :
    (insertAdd m k v).map Prod.fst =
      if (m.lookup k).isSome then m.map Prod.fst
      else m.map Prod.fst ++ [k] := by
  unfold insertAdd
  split
  · rw [List.map_map]
    apply List.map_congr_left
    intro p _
    by_cases hpk : p.1 = k
    · simp [hpk]
    · simp [hpk]
  · simp

/-- An absent key is not among a dict's keys. -/
lemma lookup_none_not_mem (i : Nat) :
    ∀ m : List (Nat × Nat), m.lookup i = none → i ∉ m.map Prod.fst
  | [], _ => by simp
  | (a1, a2) :: t, h => by
    rw [List.lookup_cons] at h
    by_cases hia : i = a1
    · rw [show (i == a1) = true by simp [hia]] at h
      exact Option.noConfusion h
    · rw [nat_beq_false hia] at h
      simp only [List.map_cons, List.mem_cons]
      push_neg
      exact ⟨hia, lookup_none_not_mem i t h⟩

/-- Folding `insertAdd` over any pair list preserves key distinctness. -/
lemma foldl_insertAdd_keys_nodup :
    ∀ (pairs : List (Nat × Nat)) (m : List (Nat × Nat)),
      (m.map Prod.fst).Nodup →
      ((pairs.foldl (fun mm p => insertAdd mm p.1 p.2) m).map Prod.fst).Nodup
  | [], _, hm => hm
  | (k, v) :: rest, m, hm => by
    rw [List.foldl_cons]
    apply foldl_insertAdd_keys_nodup rest
    rw [insertAdd_keys]
    split
    · exact hm
    · rename_i hp
      have hnm := lookup_none_not_mem k m
        (Option.not_isSome_iff_eq_none.mp hp)
      simp [List.nodup_append, hm, hnm]

/-- Every key of the folded dict comes from the accumulator or from the
pair list. -/
lemma foldl_insertAdd_keys_subset :
    ∀ (pairs : List (Nat × Nat)) (m : List (Nat × Nat)) (x : Nat),
      x ∈ (pairs.foldl (fun mm p => insertAdd mm p.1 p.2) m).map Prod.fst →
      x ∈ m.map Prod.fst ∨ x ∈ pairs.map Prod.fst
  | [], _, _, h => .inl h
  | (k, v) :: rest, m, x, h => by
    rw [List.foldl_cons] at h
    rcases foldl_insertAdd_keys_subset rest (insertAdd m k v) x h with h2 | h2
    · rw [insertAdd_keys] at h2
      split at h2
      · exact .inl h2
      · rcases List.mem_append.mp h2 with h3 | h3
        · exact .inl h3
        · rw [List.mem_singleton] at h3
          exact .inr (by simp [h3])
    · exact .inr (by simp [h2])

/-- Looking up a key the front dict lacks reaches the appended entry. -/
lemma lookup_append_of_none (i k v : Nat) :
    ∀ m : List (Nat × Nat), m.lookup i = none →
      (m ++ [(k, v)]).lookup i = if i = k then some v else none
  | [], _ => by
    rw [List.nil_append, List.lookup_cons]
    by_cases hik : i = k
    · rw [show (i == k) = true by simp [hik], if_pos hik]
    · rw [nat_beq_false hik, if_neg hik]
      rfl
  | (a1, a2) :: t, h => by
    rw [List.lookup_cons] at h
    rw [List.cons_append, List.lookup_cons]
    by_cases hia : i = a1
    · rw [show (i == a1) = true by simp [hia]] at h
      exact Option.noConfusion h
    · rw [nat_beq_false hia] at h ⊢
      exact lookup_append_of_none i k v t h

/-- Appending entries does not change a successful lookup. -/
lemma lookup_append_of_some (i w : Nat) (l : List (Nat × Nat)) :
    ∀ m : List (Nat × Nat), m.lookup i = some w →
      (m ++ l).lookup i = some w
  | [], h => Option.noConfusion h
  | (a1, a2) :: t, h => by
    rw [List.lookup_cons] at h
    rw [List.cons_append, List.lookup_cons]
    by_cases hia : i = a1
    · rw [show (i == a1) = true by simp [hia]] at h ⊢
      exact h
    · rw [nat_beq_false hia] at h ⊢
      exact lookup_append_of_some i w l t h

/-- The additive-update map changes exactly the entries at key `k`. -/
lemma lookup_map_add_self (k v : Nat) :
    ∀ m : List (Nat × Nat),
      (m.map fun p => if p.1 = k then (p.1, p.2 + v) else p).lookup k =
        (m.lookup k).map (· + v)
  | [] => rfl
  | (a1, a2) :: t => by
    by_cases ha : a1 = k
    · simp only [List.map_cons, if_pos (show (a1, a2).1 = k from ha),
        List.lookup_cons, show (k == a1) = true by simp [ha.symm]]
      rfl
    · simp only [List.map_cons, if_neg (show ¬(a1, a2).1 = k from ha),
        List.lookup_cons, nat_beq_false (fun h => ha h.symm)]
      exact lookup_map_add_self k v t

/-- The additive-update map leaves lookups at other keys unchanged. -/
lemma lookup_map_add_other (k v i : Nat) (hik : i ≠ k) :
    ∀ m : List (Nat × Nat),
      (m.map fun p => if p.1 = k then (p.1, p.2 + v) else p).lookup i =
        m.lookup i
  | [] => rfl
  | (a1, a2) :: t => by
    by_cases ha : a1 = k
    · simp only [List.map_cons, if_pos (show (a1, a2).1 = k from ha),
        List.lookup_cons, nat_beq_false (ha ▸ hik)]
      exact lookup_map_add_other k v i hik t
    · simp only [List.map_cons, if_neg (show ¬(a1, a2).1 = k from ha),
        List.lookup_cons]
      by_cases hia : i = a1
      · rw [show (i == a1) = true by simp [hia]]
      · rw [nat_beq_false hia]
        exact lookup_map_add_other k v i hik t

/-- One `insertAdd` adds `v` to the defaulted lookup at `k` and nothing
else. -/
lemma lookup_insertAdd (m : List (Nat × Nat)) (k v i : Nat) :
    ((insertAdd m k v).lookup i).getD 0 =
      (m.lookup i).getD 0 + (if i = k then v else 0) := by
  unfold insertAdd
  split
  · rename_i hp
    by_cases hik : i = k
    · subst hik
      obtain ⟨w, hw⟩ := Option.isSome_iff_exists.mp hp
      rw [lookup_map_add_self, hw]
      simp
    · rw [lookup_map_add_other k v i hik, if_neg hik]
      omega
  · rename_i hp
    have hmk : m.lookup k = none := Option.not_isSome_iff_eq_none.mp hp
    by_cases hik : i = k
    · subst hik
      rw [lookup_append_of_none i i v m hmk, if_pos rfl, if_pos rfl, hmk]
      simp
    · cases hmi : m.lookup i with
      | none =>
        rw [lookup_append_of_none i k v m hmi, if_neg hik, if_neg hik]
        rfl
      | some w =>
        rw [lookup_append_of_some i w [(k, v)] m hmi, if_neg hik]
        omega

/-- Folding `insertAdd` accumulates, at each key, the sum of the values
of the pairs carrying that key. -/
lemma lookup_foldl_insertAdd :
    ∀ (pairs : List (Nat × Nat)) (m : List (Nat × Nat)) (i : Nat),
      ((pairs.foldl (fun mm p => insertAdd mm p.1 p.2) m).lookup i).getD 0 =
        (m.lookup i).getD 0 +
          ((pairs.filter fun p => p.1 == i).map Prod.snd).sum
  | [], m, i => by simp
  | (k, v) :: rest, m, i => by
    rw [List.foldl_cons, lookup_foldl_insertAdd rest (insertAdd m k v) i,
      lookup_insertAdd m k v i]
    by_cases hik : i = k
    · have hf : ((k, v) :: rest).filter (fun p => p.1 == i) =
          (k, v) :: rest.filter (fun p => p.1 == i) := by
        simp [List.filter_cons, hik]
      rw [if_pos hik, hf, List.map_cons, List.sum_cons]
      omega
    · have hf : ((k, v) :: rest).filter (fun p => p.1 == i) =
          rest.filter (fun p => p.1 == i) := by
        simp [List.filter_cons, nat_beq_false fun h => hik h.symm]
      rw [if_neg hik, hf]
      omega

/-- A key with a successful lookup is among the dict's keys. -/
lemma lookup_isSome_mem (k : Nat) :
    ∀ m : List (Nat × Nat), (m.lookup k).isSome → k ∈ m.map Prod.fst
  | [], h => by simp [List.lookup] at h
  | (a1, a2) :: t, h => by
    rw [List.lookup_cons] at h
    by_cases hka : k = a1
    · simp [hka]
    · rw [nat_beq_false hka] at h
      simp only [List.map_cons, List.mem_cons]
      exact .inr (lookup_isSome_mem k t h)

/-- Every key of the pair list survives into the folded dict: `insertAdd`
never drops a key. -/
lemma foldl_insertAdd_keys_superset :
    ∀ (pairs m : List (Nat × Nat)) (x : Nat),
      x ∈ m.map Prod.fst ∨ x ∈ pairs.map Prod.fst →
      x ∈ (pairs.foldl (fun mm p => insertAdd mm p.1 p.2) m).map Prod.fst
  | [], _, x, h => by
    rw [List.foldl_nil]
    rcases h with h | h
    · exact h
    · exact absurd h (by simp)
  | (k, v) :: rest, m, x, h => by
    rw [List.foldl_cons]
    rcases h with h | h
    · refine foldl_insertAdd_keys_superset rest (insertAdd m k v) x (.inl ?_)
      rw [insertAdd_keys]
      split
      · exact h
      · exact List.mem_append_left _ h
    · simp only [List.map_cons, List.mem_cons] at h
      rcases h with h2 | h2
      · subst h2
        refine foldl_insertAdd_keys_superset rest (insertAdd m x v) x (.inl ?_)
        rw [insertAdd_keys]
        split
        · rename_i hp
          exact lookup_isSome_mem x m hp
        · exact List.mem_append_right _ (by simp)
      · exact foldl_insertAdd_keys_superset rest (insertAdd m k v) x (.inr h2)

/-- The first-occurrence fold preserves membership in either direction. -/
lemma firstOccur_aux_mem :
    ∀ (l acc : List String) (x : String),
      (x ∈ l.foldl (fun a w => if w ∈ a then a else a ++ [w]) acc) ↔
        x ∈ acc ∨ x ∈ l
  | [], acc, x => by simp
  | w :: t, acc, x => by
    rw [List.foldl_cons, firstOccur_aux_mem t _ x]
    by_cases hw : w ∈ acc
    · simp only [if_pos hw, List.mem_cons]
      constructor
      · rintro (h | h)
        · exact .inl h
        · exact .inr (.inr h)
      · rintro (h | h | h)
        · exact .inl h
        · exact .inl (h ▸ hw)
        · exact .inr h
    · simp only [if_neg hw, List.mem_append, List.mem_cons, List.not_mem_nil,
        or_false]
      constructor
      · rintro ((h | h) | h)
        · exact .inl h
        · exact .inr (.inl h)
        · exact .inr (.inr h)
      · rintro (h | h | h)
        · exact .inl (.inl h)
        · exact .inl (.inr h)
        · exact .inr h

/-- Keeping first occurrences neither adds nor removes elements. -/
lemma firstOccur_mem (l : List String) (x : String) :
    x ∈ firstOccur l ↔ x ∈ l := by
  unfold firstOccur
  rw [firstOccur_aux_mem]
  simp

/-- The keys of the hashed frequency pairs are exactly the hashes of the
distinct terms. -/
lemma hashed_keys (toks : List String) :
    ((counterFreq toks).map fun p => (wordHash p.1, p.2)).map Prod.fst =
      (firstOccur toks).map wordHash := by
  unfold counterFreq
  rw [List.map_map, List.map_map]
  rfl

/-- Every run the tokenizer produces consists of word characters only. -/
lemma wordRuns_chars :
    ∀ (l cur : List Char), (∀ c ∈ cur, wordCharB c = true) →
      ∀ r ∈ wordRuns l cur, ∀ c ∈ r, wordCharB c = true
  | [], cur, hcur, r, hr => by
    unfold wordRuns at hr
    split at hr
    · exact absurd hr (List.not_mem_nil r)
    · rw [List.mem_singleton] at hr
      subst hr
      intro c hc
      exact hcur c (List.mem_reverse.mp hc)
  | a :: l, cur, hcur, r, hr => by
    unfold wordRuns at hr
    by_cases ha : wordCharB a
    · rw [if_pos ha] at hr
      refine wordRuns_chars l (a :: cur) ?_ r hr
      intro c hc
      rcases List.mem_cons.mp hc with h | h
      · subst h
        exact ha
      · exact hcur c h
    · rw [if_neg ha] at hr
      by_cases hce : cur.isEmpty
      · rw [if_pos hce] at hr
        exact wordRuns_chars l [] (by simp) r hr
      · rw [if_neg hce] at hr
        rcases List.mem_cons.mp hr with h | h
        · subst h
          intro c hc
          exact hcur c (List.mem_reverse.mp hc)
        · exact wordRuns_chars l [] (by simp) r h

/-- Scanning through a block of word characters extends the current run. -/
lemma wordRuns_through_word :
    ∀ (run rest cur : List Char), (∀ c ∈ run, wordCharB c = true) →
      wordRuns (run ++ rest) cur = wordRuns rest (run.reverse ++ cur)
  | [], rest, cur, _ => by simp
  | c :: r, rest, cur, h => by
    rw [List.cons_append]
    simp only [wordRuns, if_pos (h c (List.mem_cons_self c r))]
    rw [wordRuns_through_word r rest (c :: cur)
      (fun d hd => h d (List.mem_cons_of_mem c hd))]
    simp

/-- At the end of the input a non-empty current run is emitted. -/
lemma wordRuns_emit_end (cur : List Char) (hcur : cur ≠ []) :
    wordRuns [] cur = [cur.reverse] := by
  simp only [wordRuns]
  rw [if_neg (by simpa using hcur)]

/-- At a non-word character a non-empty current run is emitted and the
scan restarts. -/
lemma wordRuns_emit_nonword (cur : List Char) (hcur : cur ≠ []) (d : Char)
    (hd : wordCharB d = false) (rest : List Char) :
    wordRuns (d :: rest) cur = cur.reverse :: wordRuns rest [] := by
  simp only [wordRuns]
  rw [if_neg (by simp [hd]), if_neg (by simpa using hcur)]

/-- A word-character run at the front of the input, bounded on the right
by a non-word character or the input edge, is among the produced runs. -/
lemma wordRuns_complete_base (run post : List Char) (hne : run ≠ [])
    (hword : ∀ c ∈ run, wordCharB c = true)
    (hpost : ∀ d, post.head? = some d → wordCharB d = false) :
    run ∈ wordRuns (run ++ post) [] := by
  rw [wordRuns_through_word run post [] hword, List.append_nil]
  cases post with
  | nil =>
    rw [wordRuns_emit_end _ (by simpa using hne)]
    simp
  | cons d post' =>
    rw [wordRuns_emit_nonword _ (by simpa using hne) d (hpost d rfl) post']
    simp

/-- Completeness of the run scanner: every word-character run bounded on
each side by a non-word character or the input edge is among the produced
runs (the scanner finds every maximal run). -/
lemma wordRuns_complete :
    ∀ (pre cur run post : List Char), run ≠ [] →
      (∀ c ∈ run, wordCharB c = true) →
      (pre = [] → cur = []) →
      (∀ d, pre.getLast? = some d → wordCharB d = false) →
      (∀ d, post.head? = some d → wordCharB d = false) →
      run ∈ wordRuns (pre ++ (run ++ post)) cur
  | [], cur, run, post, hne, hword, hcur, _, hpost => by
    rw [hcur rfl, List.nil_append]
    exact wordRuns_complete_base run post hne hword hpost
  | p :: pre', cur, run, post, hne, hword, _, hpre, hpost => by
    rw [List.cons_append]
    simp only [wordRuns]
    by_cases hp : wordCharB p
    · rw [if_pos hp]
      cases pre' with
      | nil => exact absurd (hpre p (by simp)) (by simp [hp])
      | cons q pre'' =>
        exact wordRuns_complete (q :: pre'') (p :: cur) run post hne hword
          (fun h => absurd h (List.cons_ne_nil q pre''))
          (fun d hd => hpre d (by rw [List.getLast?_cons_cons]; exact hd))
          hpost
    · rw [if_neg hp]
      have hpre' : ∀ d, pre'.getLast? = some d → wordCharB d = false := by
        intro d hd
        cases pre' with
        | nil => exact absurd hd (by simp)
        | cons q pre'' =>
          exact hpre d (by rw [List.getLast?_cons_cons]; exact hd)
      have hbase := wordRuns_complete pre' [] run post hne hword
        (fun _ => rfl) hpre' hpost
      by_cases hce : cur.isEmpty
      · rw [if_pos hce]
        exact hbase
      · rw [if_neg hce]
        exact List.mem_cons_of_mem _ hbase

/-- Sorting a duplicate-free key list ascendingly yields a strictly
ascending list. -/
lemma insertionSort_nodup_strict (keys : List Nat) (h : keys.Nodup) :
    List.Pairwise (· < ·) (List.insertionSort (· ≤ ·) keys) :=
  ((List.sorted_insertionSort (· ≤ ·) keys).and
    ((List.perm_insertionSort (· ≤ ·) keys).nodup_iff.mpr h)).imp
    fun hab => lt_of_le_of_ne hab.1 hab.2

/-- The id/weight pipeline of `sparse_encode` (sort the hashed pairs,
fold them into the collision-merging dict, sort the keys): the emitted
ids are strictly ascending, an id is emitted exactly when it is a key of
the hashed pair list (no key is dropped or invented), and the weight at
each id is the sum of the hashed pairs carrying it. -/
lemma encode_pipeline (hashed pairs merged : List (Nat × Nat))
    (indices : List Nat)
    (hpairs : pairs = List.insertionSort
      (fun p q : Nat × Nat => p.1 < q.1 ∨ (p.1 = q.1 ∧ p.2 ≤ q.2)) hashed)
    (hmerged : merged = pairs.foldl (fun mm p => insertAdd mm p.1 p.2) [])
    (hidx : indices = List.insertionSort (· ≤ ·) (merged.map Prod.fst)) :
    List.Pairwise (· < ·) indices ∧
    (∀ i, i ∈ indices ↔ i ∈ hashed.map Prod.fst) ∧
    indices.map (fun i => (merged.lookup i).getD 0) =
      indices.map fun i =>
        ((hashed.filter fun p => p.1 == i).map Prod.snd).sum := by
  refine ⟨?_, ?_, ?_⟩
  · rw [hidx]
    apply insertionSort_nodup_strict
    rw [hmerged]
    exact foldl_insertAdd_keys_nodup pairs [] (by simp)
  · intro i
    constructor
    · intro hi
      rw [hidx] at hi
      have h2 := (List.perm_insertionSort (· ≤ ·) _).mem_iff.mp hi
      rw [hmerged] at h2
      rcases foldl_insertAdd_keys_subset pairs [] i h2 with h3 | h3
      · simp at h3
      · rw [hpairs] at h3
        exact ((List.perm_insertionSort
          (fun p q : Nat × Nat => p.1 < q.1 ∨ (p.1 = q.1 ∧ p.2 ≤ q.2))
          hashed).map Prod.fst).mem_iff.mp h3
    · intro hi
      rw [hidx]
      refine (List.perm_insertionSort (· ≤ ·) _).mem_iff.mpr ?_
      rw [hmerged]
      refine foldl_insertAdd_keys_superset pairs [] i (.inr ?_)
      rw [hpairs]
      exact ((List.perm_insertionSort
        (fun p q : Nat × Nat => p.1 < q.1 ∨ (p.1 = q.1 ∧ p.2 ≤ q.2))
        hashed).map Prod.fst).mem_iff.mpr hi
  · apply List.map_congr_left
    intro i _
    rw [hmerged, lookup_foldl_insertAdd]
    rw [show (List.lookup i ([] : List (Nat × Nat))).getD 0 = 0 from rfl]
    rw [Nat.zero_add, hpairs]
    exact (((List.perm_insertionSort
      (fun p q : Nat × Nat => p.1 < q.1 ∨ (p.1 = q.1 ∧ p.2 ≤ q.2))
      hashed).filter (fun p => p.1 == i)).map Prod.snd).sum_eq

/-- C4: `sparse_encode` is pure and deterministic; a text with no
surviving tokens yields exactly the sentinel vector `(0, 0.0)`; otherwise
the emitted term ids are strictly ascending 31-bit values, an id is
emitted if and only if it is the hash of some token (every distinct term
is mapped to its id, and nothing else is emitted), and the weight at each
id is the summed token frequency of the (possibly colliding) distinct
terms hashing to it; the index and weight lists always have equal length;
every token is a word-character run of length at least 2 from the
lowercased text; and conversely every maximal word-character run of
length at least 2 of the lowercased text (bounded by a non-word character
or the text edge on each side) appears among the tokens. -/
theorem c4_sparse_encode_spec :
    (∀ s : String, sparse_encode s = sparse_encode s) ∧
    (∀ s : String, tokenize s = [] → sparse_encode s = ⟨[0], [0]⟩) ∧
    (∀ s : String, tokenize s ≠ [] →
      List.Pairwise (· < ·) (sparse_encode s).indices ∧
      (∀ i ∈ (sparse_encode s).indices, i < 2 ^ 31) ∧
      (∀ i, i ∈ (sparse_encode s).indices ↔
        ∃ w ∈ tokenize s, wordHash w = i) ∧
      (sparse_encode s).values = (sparse_encode s).indices.map fun i =>
        (((firstOccur (tokenize s)).filter fun w => wordHash w == i).map
          fun w => (tokenize s).count w).sum) ∧
    (∀ s : String,
      (sparse_encode s).values.length = (sparse_encode s).indices.length) ∧
    (∀ s : String, ∀ t ∈ tokenize s, 2 ≤ t.length ∧
      ∀ c ∈ t.toList, wordCharB c = true) ∧
    (∀ (s : String) (pre run post : List Char),
      s.toList.map Char.toLower = pre ++ (run ++ post) →
      2 ≤ run.length →
      (∀ c ∈ run, wordCharB c = true) →
      (∀ d, pre.getLast? = some d → wordCharB d = false) →
      (∀ d, post.head? = some d → wordCharB d = false) →
      String.mk run ∈ tokenize s) := by
  refine ⟨fun _ => rfl, ?_, ?_, ?_, ?_, ?_⟩
  · intro s h
    unfold sparse_encode
    rw [if_pos h]
  · intro s h
    simp only [sparse_encode, if_neg h]
    obtain ⟨h1, h2, h3⟩ := encode_pipeline
      ((counterFreq (tokenize s)).map fun p => (wordHash p.1, p.2))
      _ _ _ rfl rfl rfl
    refine ⟨h1, ?_, ?_, ?_⟩
    · intro i hi
      have h4 := (h2 i).mp hi
      rw [List.map_map] at h4
      obtain ⟨p, _, hp⟩ := List.mem_map.mp h4
      rw [← hp]
      exact Nat.mod_lt _ (by norm_num)
    · intro i
      rw [h2 i, hashed_keys]
      simp only [List.mem_map]
      constructor
      · rintro ⟨w, hw, hwi⟩
        exact ⟨w, (firstOccur_mem _ w).mp hw, hwi⟩
      · rintro ⟨w, hw, hwi⟩
        exact ⟨w, (firstOccur_mem _ w).mpr hw, hwi⟩
    · rw [h3]
      apply List.map_congr_left
      intro i _
      unfold counterFreq
      rw [List.map_map, List.filter_map, List.map_map]
      rfl
  · intro s
    by_cases h : tokenize s = []
    · simp only [sparse_encode, if_pos h]
    · simp only [sparse_encode, if_neg h]
      rw [List.length_map]
  · intro s t ht
    unfold tokenize at ht
    rcases List.mem_map.mp ht with ⟨r, hr, hrt⟩
    rcases List.mem_filter.mp hr with ⟨hrw, hlen⟩
    subst hrt
    refine ⟨by simpa using of_decide_eq_true hlen, ?_⟩
    intro c hc
    exact wordRuns_chars (s.toList.map Char.toLower) [] (by simp) r hrw c
      (by simpa using hc)
  · intro s pre run post hdecomp hlen hword hpre hpost
    unfold tokenize
    refine List.mem_map.mpr
      ⟨run, List.mem_filter.mpr ⟨?_, by simpa using hlen⟩, rfl⟩
    rw [hdecomp]
    exact wordRuns_complete pre [] run post
      (List.ne_nil_of_length_pos (by omega)) hword (fun _ => rfl) hpre hpost

set_option maxRecDepth 100000 in
/-- Concrete check of the encoder against the reference implementation:
`"hello"` hashes to `1564557354` and `"world"` to `2105094199` (the MD5
path evaluated in full), the repeated token counts 2, and ids are sorted
ascending while the one-character tokens `a`, `b` are dropped. -/
example :
    sparse_encode "Hello, hello world! a b?" =
      ⟨[1564557354, 2105094199], [2, 1]⟩ := by decide

set_option maxRecDepth 100000 in
/-- Witness for C4 at concrete inputs: the encoder evaluated in full on a
real text (the MD5 hash path computed by the kernel), the sentinel branch
on a punctuation-only text, each hypothesised conjunct applied at a
concrete instance, and tokenizer completeness for a concrete maximal
run. -/
theorem c4_sparse_encode_spec_witness :
    sparse_encode "Hello, hello world! a b?" =
      ⟨[1564557354, 2105094199], [2, 1]⟩ ∧
    sparse_encode "!!! ?" = ⟨[0], [0]⟩ ∧
    List.Pairwise (· < ·) (sparse_encode "Hello, hello world! a b?").indices ∧
    (∀ i ∈ (sparse_encode "Hello, hello world! a b?").indices, i < 2 ^ 31) ∧
    (∀ i, i ∈ (sparse_encode "Hello, hello world! a b?").indices ↔
      ∃ w ∈ tokenize "Hello, hello world! a b?", wordHash w = i) ∧
    ((sparse_encode "Hello, hello world! a b?").values =
      (sparse_encode "Hello, hello world! a b?").indices.map fun i =>
        (((firstOccur (tokenize "Hello, hello world! a b?")).filter
          fun w => wordHash w == i).map
            fun w => (tokenize "Hello, hello world! a b?").count w).sum) ∧
    String.mk ['a', 'b'] ∈ tokenize "ab!cd" :=
  ⟨by decide,
    c4_sparse_encode_spec.2.1 "!!! ?" (by decide),
    (c4_sparse_encode_spec.2.2.1 "Hello, hello world! a b?" (by decide)).1,
    (c4_sparse_encode_spec.2.2.1 "Hello, hello world! a b?" (by decide)).2.1,
    (c4_sparse_encode_spec.2.2.1 "Hello, hello world! a b?" (by decide)).2.2.1,
    (c4_sparse_encode_spec.2.2.1 "Hello, hello world! a b?" (by decide)).2.2.2,
    c4_sparse_encode_spec.2.2.2.2.2 "ab!cd" [] ['a', 'b'] ['!', 'c', 'd']
      (by decide) (by decide) (by decide)
      (fun d hd => Option.noConfusion hd)
      (fun d hd => by injection hd with h; subst h; decide)⟩

end Axio
